import Mathlib

/-
Verification of the `slog-mozlog-json` crate (sources: `src/drain.rs`,
`src/util.rs`).  The crate encodes one structured log event into one MozLog
JSON object via a two-pass protocol: pass 1 renders the envelope with a
placeholder in the `Fields` slot, pass 2 renders the fields map, and a
textual splice substitutes the pass-2 bytes for the quoted placeholder.

The embedding below models, faithfully to the source:
  * the severity tables of `util.rs`;
  * serde_json's compact and pretty formatter output for the flat maps the
    drain emits (scalar entries only, as in the source, where every map the
    two passes write holds scalars only);
  * the `SerdeSerializer` entry emission including the thread-local
    scratch buffer of `emit_arguments`;
  * `log_placeholder_impl` (which calls `end()` on its map serializer),
    `log_fields_impl` (which does NOT call `end()`), and `log` with the
    `str::replace` splice and the appended closing brace;
  * the builder (`MozLogJsonBuilder::new` reading `MOZLOG_GCP` once, and
    `build` assembling the static value lists).
Floating-point emitters (`emit_f32`/`emit_f64`) and the feature-gated
`emit_serde` are outside the modeled value universe; no claim depends on
them.  Validity of output bytes is expressed through an inductive render
relation `ValR` describing JSON text with canonical escapes and optional
insignificant whitespace: every string related to a value by `ValR` is
parseable JSON denoting that value.
-/

/-! ### Strings: basic gluing lemmas -/

/-! ### Decimal rendering, modelling serde_json's integer output -/

def decDigit (n : Nat) : Char :=
  match n % 10 with
  | 0 => '0' | 1 => '1' | 2 => '2' | 3 => '3' | 4 => '4'
  | 5 => '5' | 6 => '6' | 7 => '7' | 8 => '8' | _ => '9'

def natReprAux : Nat → Nat → List Char
  | 0, _ => []
  | fuel + 1, n =>
    if n < 10 then [decDigit n] else natReprAux fuel (n / 10) ++ [decDigit (n % 10)]

def natRepr (n : Nat) : String := ⟨natReprAux (n + 1) n⟩

def intRepr : Int → String
  | .ofNat n => natRepr n
  | .negSucc n => "-" ++ natRepr (n + 1)

/-- Characters that are inert for the JSON structure scanner: not a quote,
not a backslash, not a brace. -/
def PlainCh (c : Char) : Prop := c ≠ '"' ∧ c ≠ '\\' ∧ c ≠ '{' ∧ c ≠ '}'

instance : DecidablePred PlainCh := fun c => by
  unfold PlainCh
  infer_instance

/-! ### JSON string escaping, modelling serde_json's canonical escapes -/

def hexCh (n : Nat) : Char :=
  match n % 16 with
  | 0 => '0' | 1 => '1' | 2 => '2' | 3 => '3' | 4 => '4' | 5 => '5'
  | 6 => '6' | 7 => '7' | 8 => '8' | 9 => '9' | 10 => 'a' | 11 => 'b'
  | 12 => 'c' | 13 => 'd' | 14 => 'e' | _ => 'f'

def escCh (c : Char) : List Char :=
  if c = '"' then ['\\', '"']
  else if c = '\\' then ['\\', '\\']
  else if c = '\x08' then ['\\', 'b']
  else if c = '\x09' then ['\\', 't']
  else if c = '\x0a' then ['\\', 'n']
  else if c = '\x0c' then ['\\', 'f']
  else if c = '\x0d' then ['\\', 'r']
  else if c.toNat < 0x20 then ['\\', 'u', '0', '0', hexCh (c.toNat / 16), hexCh (c.toNat % 16)]
  else [c]

def escData : List Char → List Char
  | [] => []
  | c :: cs => escCh c ++ escData cs

/-- The serde_json rendering of a string scalar (also used for map keys):
a double-quoted, canonically escaped literal. -/
def strLit (s : String) : String := "\"" ++ ⟨escData s.data⟩ ++ "\""

/-! ### A structural scanner: quote/escape state and brace depth.

`scanSt` tracks whether the scanner is outside a string literal (state 0),
inside one (state 1), or inside one right after a backslash (state 2);
`scanAux` folds it over a character list while summing brace depth counted
only outside string literals.  Any string that `ValR` relates to a JSON
value scans from `(0, d)` to `(0, d)`; the post-splice bytes produced from
a colliding placeholder value do not, which refutes their validity. -/

def scanStep (st : Nat) (c : Char) : Nat :=
  if st = 0 then (if c = '"' then 1 else 0)
  else if st = 1 then (if c = '\\' then 2 else if c = '"' then 0 else 1)
  else 1

def scanDelta (st : Nat) (c : Char) : Int :=
  if st = 0 then (if c = '{' then 1 else if c = '}' then -1 else 0) else 0

def scanAux : Nat → Int → List Char → Nat × Int
  | st, d, [] => (st, d)
  | st, d, c :: cs => scanAux (scanStep st c) (d + scanDelta st c) cs

/-! ### JSON values and the render relation -/

/-- JSON value trees (the fragment the drain can emit: scalars and objects
with ordered, possibly-duplicated keys). -/
inductive JVal where
  | jnull
  | jbool (b : Bool)
  | jint (n : Int)
  | jstr (s : String)
  | jobj (entries : List (String × JVal))

/-- Insignificant JSON whitespace. -/
def IsWs (w : String) : Prop := ∀ c ∈ w.data, c = ' ' ∨ c = '\n' ∨ c = '\t' ∨ c = '\r'

mutual
/-- `ValR j s`: the string `s` is a JSON rendering of the value `j`, with
canonical serde_json escapes in string literals and optional insignificant
whitespace between tokens.  Every such `s` is valid JSON text denoting `j`. -/
inductive ValR : JVal → String → Prop where
  | jnull : ValR .jnull "null"
  | jtrue : ValR (.jbool true) "true"
  | jfalse : ValR (.jbool false) "false"
  | jint (n : Int) : ValR (.jint n) (intRepr n)
  | jstr (s : String) : ValR (.jstr s) (strLit s)
  | jobjEmpty (w : String) : IsWs w → ValR (.jobj []) ("\x7b" ++ w ++ "\x7d")
  | jobj (es : List (String × JVal)) (body : String) :
      EntriesR es body → ValR (.jobj es) ("\x7b" ++ body ++ "\x7d")

/-- `EntriesR es body`: `body` is a rendering of the nonempty entry
sequence `es` (the text between the braces of an object). -/
inductive EntriesR : List (String × JVal) → String → Prop where
  | last (k : String) (v : JVal) (w1 w2 w3 w4 vs : String) :
      IsWs w1 → IsWs w2 → IsWs w3 → IsWs w4 → ValR v vs →
      EntriesR [(k, v)] (w1 ++ strLit k ++ w2 ++ ":" ++ w3 ++ vs ++ w4)
  | cons (k : String) (v : JVal) (rest : List (String × JVal)) (w1 w2 w3 vs srest : String) :
      IsWs w1 → IsWs w2 → IsWs w3 → ValR v vs → EntriesR rest srest →
      EntriesR ((k, v) :: rest) (w1 ++ strLit k ++ w2 ++ ":" ++ w3 ++ vs ++ "," ++ srest)
end

/-- Scanner preservation: running the scanner over the list from outside a
string literal at depth `d` returns to outside at depth `d`. -/
def Preserves (l : List Char) : Prop := ∀ d : Int, scanAux 0 d l = (0, d)

/-! ### util.rs: the severity tables -/

/-- `slog::Level` (a closed enumeration supplied by the logging framework). -/
inductive Level where
  | critical | error | warning | info | debug | trace
deriving DecidableEq

/-- `util.rs`: `level_to_severity` (MozLog 0-7 scale, returned as `u8`). -/
def level_to_severity : Level → Nat
  | .critical => 2
  | .error => 3
  | .warning => 4
  | .info => 6
  | .debug => 7
  | .trace => 7

/-- `util.rs`: `level_to_gcp_severity` (GCP 0-800 scale, returned as `u16`). -/
def level_to_gcp_severity : Level → Nat
  | .critical => 600
  | .error => 500
  | .warning => 400
  | .info => 200
  | .debug => 100
  | .trace => 100

/-! ### drain.rs: values and the serde serializer adapter -/

/-- The value universe the `SerdeSerializer` adapter handles (one
constructor per `emit_*` family; all integer widths are collapsed into
`vInt`, which is faithful because serde_json prints them all in plain
decimal).  `vFmt` is a lazily formatted value carrying its rendered text;
`vErr` is a value whose backend serialization fails, modelling the
`serde serialization error` branch of `impl_m!`. -/
inductive SValue where
  | vBool (b : Bool)
  | vInt (n : Int)
  | vStr (s : String)
  | vChar (c : Char)
  | vUnit
  | vFmt (s : String)
  | vErr
deriving DecidableEq

/-- The serde_json text for one scalar value, `none` when the backend
rejects it.  `vFmt` goes through the thread-local buffer (see
`emit_arguments`); starting from an empty buffer it emits exactly the
rendered text as a string scalar. -/
def svalText : SValue → Option String
  | .vBool true => some "true"
  | .vBool false => some "false"
  | .vInt n => some (intRepr n)
  | .vStr s => some (strLit s)
  | .vChar c => some (strLit (String.singleton c))
  | .vUnit => some "null"
  | .vFmt s => some (strLit s)
  | .vErr => none

/-- The JSON value denoted by a scalar. -/
def SValue.toJVal : SValue → Option JVal
  | .vBool b => some (.jbool b)
  | .vInt n => some (.jint n)
  | .vStr s => some (.jstr s)
  | .vChar c => some (.jstr (String.singleton c))
  | .vUnit => some .jnull
  | .vFmt s => some (.jstr s)
  | .vErr => none

/-- serde_json punctuation before a key: the CompactFormatter writes `,`
between entries and nothing else; the PrettyFormatter adds a newline and
the two-space indent (every map the drain writes is at nesting depth
one). -/
def keySep (pretty first : Bool) : String :=
  if pretty then (if first then "\n  " else ",\n  ") else (if first then "" else ",")

/-- serde_json punctuation between a key and its value. -/
def colonSep (pretty : Bool) : String := if pretty then ": " else ":"

/-- serde_json `end_object`: the PrettyFormatter emits a newline before the
closing brace when the map has entries. -/
def endObjTxt (pretty hasEntries : Bool) : String :=
  if pretty && hasEntries then "\n\x7d" else "\x7d"

/-- The state of an open serde_json map serializer over a byte buffer:
the bytes written so far and whether no entry has been written yet.
`SerdeSerializer::start` corresponds to `mapStart` (serde_json's
`serialize_map` writes the opening brace immediately). -/
structure MapSer where
  buf : String
  first : Bool
deriving DecidableEq

def mapStart : MapSer := ⟨"\x7b", true⟩

/-- `SerializeMap::serialize_entry` with the value already rendered to
`vtxt`. -/
def emitEntry (pretty : Bool) (m : MapSer) (k : String) (vtxt : String) : MapSer :=
  ⟨m.buf ++ keySep pretty m.first ++ strLit k ++ colonSep pretty ++ vtxt, false⟩

/-- One key-value emission through `SerdeSerializer` (the `impl_m!` macro):
fails with the `serde serialization error` when the backend rejects the
value. -/
def emitKV (pretty : Bool) (m : MapSer) (k : String) (v : SValue) : Option MapSer :=
  (svalText v).map (emitEntry pretty m k)

/-- `KV::serialize` of an ordered pair sequence into the open map,
aborting on the first failing entry. -/
def serKVList (pretty : Bool) : MapSer → List (String × SValue) → Option MapSer
  | m, [] => some m
  | m, (k, v) :: rest =>
    match emitKV pretty m k v with
    | some m2 => serKVList pretty m2 rest
    | none => none

/-- `SerdeSerializer::emit_arguments`: append the rendered text `val` to
the thread-local scratch buffer `tlbuf`, attempt to write the buffer
content as a string entry (`ok` is whether the backend accepts it), then
clear the buffer.  Returns the write result and the buffer state on
return. -/
def emit_arguments (pretty : Bool) (m : MapSer) (tlbuf : String) (k : String)
    (val : String) (ok : Bool) : Option MapSer × String :=
  let buf := tlbuf ++ val
  let res := if ok then some (emitEntry pretty m k (strLit buf)) else none
  (res, "")

/-! ### drain.rs: the drain, the builder, and the two-pass protocol -/

/-- A static attribute value held in the drain's `values` lists: either a
value attached eagerly at build time, or one of the `FnValue` closures
`build` installs (`Timestamp` reads the clock at log time; the severity
closures read the record's level). `Pid` is eager: `build` calls
`process::id()` once. -/
inductive StaticVal where
  | const (v : SValue)
  | fnTimestamp
  | fnSeverity
  | fnGcpSeverity
deriving DecidableEq

def StaticVal.resolve (ts : Int) (lvl : Level) : StaticVal → SValue
  | .const v => v
  | .fnTimestamp => .vInt ts
  | .fnSeverity => .vInt (level_to_severity lvl)
  | .fnGcpSeverity => .vInt (level_to_gcp_severity lvl)

/-- A `slog::Record`: rendered message text, level, and the call-site
key-value sequence in call order. -/
structure Record where
  msg : String
  level : Level
  kv : List (String × SValue)

/-- `MozLogJson` (the drain), minus the `io` handle, which the pure model
threads through `logRun` instead. -/
structure MozLogJson where
  newlines : Bool
  values : List (List (String × StaticVal))
  pretty : Bool
deriving DecidableEq

/-- `MozLogJsonBuilder`; the `io` handle is omitted as in `MozLogJson`. -/
structure MozLogJsonBuilder where
  newlines : Bool
  values : List (List (String × StaticVal))
  pretty : Bool
  logger_name : Option String
  msg_type : Option String
  hostname : Option String
  gcp : Bool
deriving DecidableEq

/-- Rust's `bool::from_str`: only the exact strings `true` / `false`
parse. -/
def boolFromStr (s : String) : Option Bool :=
  if s = "true" then some true else if s = "false" then some false else none

/-- `MozLogJsonBuilder::new`.  The single environment read of the whole
crate: `MOZLOG_GCP` is sampled here, once, with absence defaulting to
`"false"` and unparsable values defaulting to `false`. -/
def MozLogJsonBuilder.new (envGcp : Option String) : MozLogJsonBuilder :=
  { newlines := true
    values := []
    pretty := false
    logger_name := none
    msg_type := none
    hostname := none
    gcp := (boolFromStr (envGcp.getD "false")).getD false }

/-- `MozLogJsonBuilder::build`: appends the optional `Logger`/`Type`/
`Hostname` sources, then the `Timestamp`+`Pid` source, then the severity
source, after any custom sources already accumulated in `values`. -/
def MozLogJsonBuilder.build (b : MozLogJsonBuilder) (pid : Nat) : MozLogJson :=
  let values :=
    (match b.logger_name with
     | some n => [[("Logger", StaticVal.const (.vStr n))]]
     | none => [])
    ++ (match b.msg_type with
     | some t => [[("Type", StaticVal.const (.vStr t))]]
     | none => [])
    ++ (match b.hostname with
     | some h => [[("Hostname", StaticVal.const (.vStr h))]]
     | none => [])
    ++ [[("Timestamp", StaticVal.fnTimestamp), ("Pid", StaticVal.const (.vInt pid))]]
    ++ [if b.gcp then [("severity", StaticVal.fnGcpSeverity)]
        else [("Severity", StaticVal.fnSeverity)]]
  { newlines := b.newlines
    values := b.values ++ values
    pretty := b.pretty }

def MozLogJsonBuilder.enable_gcp (b : MozLogJsonBuilder) : MozLogJsonBuilder :=
  { b with gcp := true }

def MozLogJsonBuilder.set_newlines (b : MozLogJsonBuilder) (enabled : Bool) :
    MozLogJsonBuilder := { b with newlines := enabled }

def MozLogJsonBuilder.set_pretty (b : MozLogJsonBuilder) (enabled : Bool) :
    MozLogJsonBuilder := { b with pretty := enabled }

/-- `MozLogJsonBuilder::add_key_value` (one custom `OwnedKVList`). -/
def MozLogJsonBuilder.add_key_value (b : MozLogJsonBuilder)
    (kvs : List (String × StaticVal)) : MozLogJsonBuilder :=
  { b with values := b.values ++ [kvs] }

/-- The `logger_name` / `msg_type` / `hostname` builder setters. -/
def MozLogJsonBuilder.set_logger_name (b : MozLogJsonBuilder) (s : String) :
    MozLogJsonBuilder := { b with logger_name := some s }

def MozLogJsonBuilder.set_msg_type (b : MozLogJsonBuilder) (s : String) :
    MozLogJsonBuilder := { b with msg_type := some s }

def MozLogJsonBuilder.set_hostname (b : MozLogJsonBuilder) (s : String) :
    MozLogJsonBuilder := { b with hostname := some s }

/-- The loop `for kv in &self.values` of `log_placeholder_impl`: serialize
each static source, with its lazy values resolved against the clock and
the record's level, into the one open map. -/
def serStaticLists (pretty : Bool) (ts : Int) (lvl : Level) :
    MapSer → List (List (String × StaticVal)) → Option MapSer
  | m, [] => some m
  | m, kvl :: rest =>
    match serKVList pretty m (kvl.map (fun p => (p.1, p.2.resolve ts lvl))) with
    | some m2 => serStaticLists pretty ts lvl m2 rest
    | none => none

/-- `MozLogJson::log_placeholder_impl` (pass 1): open a map, write every
static source, write `"Fields" => "00PLACEHOLDER00"`, and call `end()`
(which emits the closing brace). -/
def MozLogJson.log_placeholder_impl (d : MozLogJson) (ts : Int) (r : Record) :
    Option String :=
  match serStaticLists d.pretty ts r.level mapStart d.values with
  | none => none
  | some m =>
    match emitKV d.pretty m "Fields" (.vStr "00PLACEHOLDER00") with
    | none => none
    | some m2 => some (m2.buf ++ endObjTxt d.pretty (!m2.first))

/-- `MozLogJson::log_fields_impl` (pass 2): open a map, write
`msg`, the logger-context pairs, then the call-site pairs — and return
WITHOUT calling `end()`: the buffer lacks the closing brace (and, in
pretty mode, the newline before it). -/
def MozLogJson.log_fields_impl (d : MozLogJson) (r : Record)
    (logger_values : List (String × SValue)) : Option String :=
  match emitKV d.pretty mapStart "msg" (.vStr r.msg) with
  | none => none
  | some m =>
    match serKVList d.pretty m logger_values with
    | none => none
    | some m2 =>
      match serKVList d.pretty m2 r.kv with
      | none => none
      | some m3 => some m3.buf

/-- The quoted placeholder text `log` substitutes
(`"\"00PLACEHOLDER00\""` in the source). -/
def phPat : String := "\"00PLACEHOLDER00\""

/-- Rust's `str::replace`: replace every non-overlapping occurrence of
`pat`, scanning left to right.  Structured with fuel equal to the input
length so that the definition computes by kernel reduction. -/
def replaceAux (pat rep : List Char) : Nat → List Char → List Char
  | _, [] => []
  | 0, s => s
  | fuel + 1, c :: cs =>
    if pat.isPrefixOf (c :: cs) then
      rep ++ replaceAux pat rep fuel (List.drop pat.length (c :: cs))
    else c :: replaceAux pat rep fuel cs

def rustReplace (s pat rep : String) : String :=
  ⟨replaceAux pat.data rep.data s.data.length s.data⟩

/-- The body of `Drain::log` up to (and including) the appended closing
brace: run pass 1, run pass 2, substitute the quoted placeholder with the
pass-2 bytes, push `}`. -/
def MozLogJson.logBody (d : MozLogJson) (ts : Int) (r : Record)
    (logger_values : List (String × SValue)) : Option String :=
  match d.log_placeholder_impl ts r with
  | none => none
  | some payload =>
    match d.log_fields_impl r logger_values with
    | none => none
    | some fields => some (rustReplace payload phPat fields ++ "\x7d")

/-- `Drain::log`: the bytes written to the sink on success (the spliced
payload plus the optional newline), `none` when either pass fails. -/
def MozLogJson.log (d : MozLogJson) (ts : Int) (r : Record)
    (logger_values : List (String × SValue)) : Option String :=
  (d.logBody ts r logger_values).map
    (fun body => body ++ if d.newlines then "\n" else "")

/-- `Drain::log` observed at the sink: on a serialization error the sink's
byte stream is unchanged; on success the payload is appended. -/
def MozLogJson.logRun (d : MozLogJson) (ts : Int) (r : Record)
    (logger_values : List (String × SValue)) (sink : String) :
    Option Unit × String :=
  match d.log ts r logger_values with
  | none => (none, sink)
  | some bytes => (some (), sink ++ bytes)

/-! ### Rendering equations for the serializer folds -/

/-- The text one entry contributes to the map buffer. -/
def entryTxt (pretty first : Bool) (k : String) (vtxt : String) : String :=
  keySep pretty first ++ strLit k ++ colonSep pretty ++ vtxt

/-- The buffer text of a whole entry sequence already rendered to
(key, value-text) pairs. -/
def renderEntries (pretty first : Bool) : List (String × String) → String
  | [] => ""
  | (k, t) :: rest => entryTxt pretty first k t ++ renderEntries pretty false rest

/-- Render every value of a pair list, failing if any value fails. -/
def resolveTexts : List (String × SValue) → Option (List (String × String))
  | [] => some []
  | (k, v) :: rest =>
    match svalText v, resolveTexts rest with
    | some t, some ts => some ((k, t) :: ts)
    | _, _ => none

/-- The JSON values denoted by a pair list, failing if any value fails. -/
def resolveJVals : List (String × SValue) → Option (List (String × JVal))
  | [] => some []
  | (k, v) :: rest =>
    match SValue.toJVal v, resolveJVals rest with
    | some j, some js => some ((k, j) :: js)
    | _, _ => none

/-- The static sources of the drain, flattened in configuration order with
their lazy values resolved. -/
def resolveStatics (ts : Int) (lvl : Level)
    (ls : List (List (String × StaticVal))) : List (String × SValue) :=
  (ls.map (fun l => l.map (fun p => (p.1, p.2.resolve ts lvl)))).flatten

/-! ### From rendered entries to the render relation -/

instance (w : String) : Decidable (IsWs w) := by
  unfold IsWs
  exact List.decidableBAll _ _

/-- Pointwise relation: each rendered entry text denotes the corresponding
JSON value under the corresponding key. -/
inductive PairsR : List (String × JVal) → List (String × String) → Prop where
  | nil : PairsR [] []
  | cons (k : String) {j : JVal} {t : String} {js : List (String × JVal)}
      {ts : List (String × String)} :
      ValR j t → PairsR js ts → PairsR ((k, j) :: js) ((k, t) :: ts)

/-- The whitespace the pretty formatter puts after the colon. -/
def colonWs (pretty : Bool) : String := if pretty then " " else ""

/-! ### Closed forms of the two passes -/

/-! ### Pass success forces resolvability -/

/-! ### Splice lemmas for rustReplace -/

/-- No occurrence of the quoted placeholder starts inside `pre`: the
condition under which `str::replace` touches only the `Fields` slot of the
pass-1 payload `pre ++ phPat ++ close`. -/
def PlacedOnce (pre : String) : Prop :=
  ¬ phPat.data <:+: (pre.data ++ phPat.data.dropLast)

instance (pre : String) : Decidable (PlacedOnce pre) := by
  unfold PlacedOnce
  infer_instance

/-- Everything of the pass-1 payload that precedes the quoted placeholder:
the opening brace, the rendered static entries, and the `Fields` key with
its separators.  (Total: when pass 1 fails the value is unused.) -/
def MozLogJson.pass1Pre (d : MozLogJson) (ts : Int) (lvl : Level) : String :=
  let tsS := (resolveTexts (resolveStatics ts lvl d.values)).getD []
  "\x7b" ++ renderEntries d.pretty true tsS ++ keySep d.pretty tsS.isEmpty
    ++ strLit "Fields" ++ colonSep d.pretty

/-! ### Supporting key-order lemmas for the claims -/

/-! ### Claim theorems -/

/-- Witness fixtures: a fully configured builder and a concrete record. -/
def wit7Builder : MozLogJsonBuilder :=
  ((((MozLogJsonBuilder.new none).add_key_value
    [("v", StaticVal.const (SValue.vStr "1"))]).set_logger_name "svc").set_msg_type
    "app").set_hostname "h"

def wit7Record : Record := ⟨"m", Level.error, []⟩

/-- Collision fixture: a builder whose logger name is exactly the
placeholder text. -/
def collBuilder : MozLogJsonBuilder :=
  (MozLogJsonBuilder.new none).set_logger_name "00PLACEHOLDER00"

def collRecord : Record := ⟨"started", Level.info, [("port", SValue.vInt 8080)]⟩

/-! ### A no-collision criterion for the default envelopes -/

def wit6Record : Record := ⟨"m", Level.warning, []⟩

set_option maxRecDepth 16384

theorem strData_ext {a b : String} (h : a.data = b.data) : a = b := by
  cases a
  cases b
  exact congrArg String.mk h

theorem strData_app (a b : String) : (a ++ b).data = a.data ++ b.data :=
  String.data_append a b

theorem decDigit_plain (n : Nat) : PlainCh (decDigit n) := by
  unfold decDigit
  split <;> exact ⟨by decide, by decide, by decide, by decide⟩

theorem natReprAux_plain (fuel n : Nat) : ∀ c ∈ natReprAux fuel n, PlainCh c := by
  induction fuel generalizing n with
  | zero => intro c hc; simp [natReprAux] at hc
  | succ fuel ih =>
    intro c hc
    simp only [natReprAux] at hc
    split at hc
    · simp only [List.mem_singleton] at hc
      exact hc ▸ decDigit_plain n
    · rcases List.mem_append.mp hc with h | h
      · exact ih _ _ h
      · simp only [List.mem_singleton] at h
        exact h ▸ decDigit_plain (n % 10)

theorem natRepr_plain (n : Nat) : ∀ c ∈ (natRepr n).data, PlainCh c :=
  natReprAux_plain (n + 1) n

theorem intRepr_plain (n : Int) : ∀ c ∈ (intRepr n).data, PlainCh c := by
  cases n with
  | ofNat m => exact natRepr_plain m
  | negSucc m =>
    intro c hc
    rw [intRepr, strData_app] at hc
    rcases List.mem_append.mp hc with h | h
    · simp only [show ("-" : String).data = ['-'] from rfl, List.mem_singleton] at h
      exact h ▸ ⟨by decide, by decide, by decide, by decide⟩
    · exact natRepr_plain _ _ h

theorem scanAux_append (a : List Char) :
    ∀ (st : Nat) (d : Int) (b : List Char),
      scanAux st d (a ++ b) = scanAux (scanAux st d a).1 (scanAux st d a).2 b := by
  induction a with
  | nil => intro st d b; rfl
  | cons c cs ih => intro st d b; exact ih _ _ b

theorem scanAux_plain {l : List Char} (h : ∀ c ∈ l, PlainCh c) (d : Int) :
    scanAux 0 d l = (0, d) := by
  induction l generalizing d with
  | nil => rfl
  | cons c cs ih =>
    obtain ⟨h1, _, h3, h4⟩ := h c (List.mem_cons_self c cs)
    have hstep : scanStep 0 c = 0 := by simp [scanStep, h1]
    have hdelta : scanDelta 0 c = 0 := by simp [scanDelta, h3, h4]
    show scanAux (scanStep 0 c) (d + scanDelta 0 c) cs = (0, d)
    rw [hstep, hdelta, add_zero]
    exact ih (fun x hx => h x (List.mem_cons_of_mem c hx)) d

theorem hexCh_inert (n : Nat) : hexCh n ≠ '\\' ∧ hexCh n ≠ '"' := by
  unfold hexCh
  split <;> exact ⟨by decide, by decide⟩

theorem scanAux_in1 {c : Char} (h1 : c ≠ '\\') (h2 : c ≠ '"') (d : Int) (cs : List Char) :
    scanAux 1 d (c :: cs) = scanAux 1 d cs := by
  show scanAux (scanStep 1 c) (d + scanDelta 1 c) cs = scanAux 1 d cs
  have hs : scanStep 1 c = 1 := by simp [scanStep, h1, h2]
  have hd : scanDelta 1 c = 0 := by simp [scanDelta]
  rw [hs, hd, add_zero]

theorem scanAux_esc2 (x : Char) (d : Int) (cs : List Char) :
    scanAux 1 d ('\\' :: x :: cs) = scanAux 1 d cs := by
  show scanAux (scanStep (scanStep 1 '\\') x)
      ((d + scanDelta 1 '\\') + scanDelta (scanStep 1 '\\') x) cs = scanAux 1 d cs
  have h1 : scanStep 1 '\\' = 2 := by simp [scanStep]
  have h2 : scanStep 2 x = 1 := by simp [scanStep]
  have h3 : scanDelta 1 '\\' = 0 := by simp [scanDelta]
  have h4 : scanDelta 2 x = 0 := by simp [scanDelta]
  rw [h1, h2, h3, h4, add_zero, add_zero]

theorem scanAux_escCh (c : Char) (d : Int) (cs : List Char) :
    scanAux 1 d (escCh c ++ cs) = scanAux 1 d cs := by
  unfold escCh
  split
  · exact scanAux_esc2 _ d cs
  · split
    · exact scanAux_esc2 _ d cs
    · split
      · exact scanAux_esc2 _ d cs
      · split
        · exact scanAux_esc2 _ d cs
        · split
          · exact scanAux_esc2 _ d cs
          · split
            · exact scanAux_esc2 _ d cs
            · split
              · exact scanAux_esc2 _ d cs
              · split
                · obtain ⟨ha1, ha2⟩ := hexCh_inert (c.toNat / 16)
                  obtain ⟨hb1, hb2⟩ := hexCh_inert (c.toNat % 16)
                  show scanAux 1 d ('\\' :: 'u' :: '0' :: '0' :: _ :: _ :: cs) = scanAux 1 d cs
                  rw [scanAux_esc2]
                  rw [scanAux_in1 (by decide) (by decide)]
                  rw [scanAux_in1 (by decide) (by decide)]
                  rw [scanAux_in1 ha1 ha2, scanAux_in1 hb1 hb2]
                · rename_i h1 h2 _ _ _ _ _ _
                  show scanAux 1 d (c :: cs) = scanAux 1 d cs
                  exact scanAux_in1 h2 h1 d cs

theorem scanAux_escData (l : List Char) (d : Int) (cs : List Char) :
    scanAux 1 d (escData l ++ cs) = scanAux 1 d cs := by
  induction l with
  | nil => rfl
  | cons c l ih =>
    show scanAux 1 d ((escCh c ++ escData l) ++ cs) = scanAux 1 d cs
    rw [List.append_assoc, scanAux_escCh, ih]

theorem scanAux_strLit (s : String) (d : Int) : scanAux 0 d (strLit s).data = (0, d) := by
  show scanAux 0 d (("\"" ++ ⟨escData s.data⟩ ++ "\"" : String)).data = (0, d)
  rw [strData_app, strData_app]
  have hq : ("\"" : String).data = ['"'] := rfl
  rw [hq]
  show scanAux 0 d ('"' :: (escData s.data ++ ['"'])) = (0, d)
  have hopen : scanAux 0 d ('"' :: (escData s.data ++ ['"'])) =
      scanAux 1 d (escData s.data ++ ['"']) := by
    show scanAux (scanStep 0 '"') (d + scanDelta 0 '"') _ = _
    have h1 : scanStep 0 '"' = 1 := by simp [scanStep]
    have h2 : scanDelta 0 '"' = 0 := by simp [scanDelta]
    rw [h1, h2, add_zero]
  rw [hopen, scanAux_escData]
  show scanAux (scanStep 1 '"') (d + scanDelta 1 '"') [] = (0, d)
  have h1 : scanStep 1 '"' = 0 := by simp [scanStep]
  have h2 : scanDelta 1 '"' = 0 := by simp [scanDelta]
  rw [h1, h2, add_zero]
  rfl

theorem isws_plain {w : String} (h : IsWs w) : ∀ c ∈ w.data, PlainCh c := by
  intro c hc
  rcases h c hc with h | h | h | h <;> subst h <;>
    exact ⟨by decide, by decide, by decide, by decide⟩

theorem isws_append {a b : String} (ha : IsWs a) (hb : IsWs b) : IsWs (a ++ b) := by
  intro c hc
  rw [strData_app] at hc
  rcases List.mem_append.mp hc with h | h
  · exact ha c h
  · exact hb c h

theorem isws_empty : IsWs "" := by intro c hc; simp [String.data] at hc

theorem preserves_append {a b : List Char} (ha : Preserves a) (hb : Preserves b) :
    Preserves (a ++ b) := by
  intro d
  rw [scanAux_append, ha d]
  exact hb d

theorem preserves_str_app {a b : String} (ha : Preserves a.data) (hb : Preserves b.data) :
    Preserves (a ++ b).data := by
  rw [strData_app]
  exact preserves_append ha hb

theorem preserves_strLit (s : String) : Preserves (strLit s).data :=
  fun d => scanAux_strLit s d

theorem preserves_of_plain {l : List Char} (h : ∀ c ∈ l, PlainCh c) : Preserves l :=
  fun d => scanAux_plain h d

theorem data_braces (body : String) :
    ("\x7b" ++ body ++ "\x7d").data = '{' :: (body.data ++ ['}']) := by
  rw [strData_app, strData_app]
  simp [show ("\x7b" : String).data = ['{'] from rfl, show ("\x7d" : String).data = ['}'] from rfl]

theorem preserves_braces {body : String} (h : Preserves body.data) :
    Preserves ("\x7b" ++ body ++ "\x7d").data := by
  intro d
  rw [data_braces]
  show scanAux (scanStep 0 '{') (d + scanDelta 0 '{') (body.data ++ ['}']) = (0, d)
  have h1 : scanStep 0 '{' = 0 := by simp [scanStep]
  have h2 : scanDelta 0 '{' = 1 := by simp [scanDelta]
  rw [h1, h2, scanAux_append, h (d + 1)]
  show scanAux (scanStep 0 '}') ((d + 1) + scanDelta 0 '}') [] = (0, d)
  have h3 : scanStep 0 '}' = 0 := by simp [scanStep]
  have h4 : scanDelta 0 '}' = -1 := by simp [scanDelta]
  rw [h3, h4]
  show (0, d + 1 + -1) = ((0 : Nat), d)
  norm_num

/-- Soundness of the render relation for the structural scanner: any
rendering of a JSON value is brace-balanced with all braces outside string
literals matched, and ends outside every string literal. -/
theorem valR_scan {j : JVal} {s : String} (h : ValR j s) : Preserves s.data := by
  refine @ValR.rec (fun _ s _ => Preserves s.data) (fun _ s _ => Preserves s.data)
    ?_ ?_ ?_ ?_ ?_ ?_ ?_ ?_ ?_ j s h
  · exact preserves_of_plain (by decide)
  · exact preserves_of_plain (by decide)
  · exact preserves_of_plain (by decide)
  · intro n
    exact preserves_of_plain (intRepr_plain n)
  · intro s
    exact preserves_strLit s
  · intro w hw
    exact preserves_braces (preserves_of_plain (isws_plain hw))
  · intro es body _ ih
    exact preserves_braces ih
  · intro k v w1 w2 w3 w4 vs hw1 hw2 hw3 hw4 _ ih
    have p1 := preserves_str_app (preserves_of_plain (isws_plain hw1)) (preserves_strLit k)
    have p2 := preserves_str_app p1 (preserves_of_plain (isws_plain hw2))
    have p3 := preserves_str_app p2 (preserves_of_plain (l := (":" : String).data) (by decide))
    have p4 := preserves_str_app p3 (preserves_of_plain (isws_plain hw3))
    have p5 := preserves_str_app p4 ih
    exact preserves_str_app p5 (preserves_of_plain (isws_plain hw4))
  · intro k v rest w1 w2 w3 vs srest hw1 hw2 hw3 _ _ ihv ihrest
    have p1 := preserves_str_app (preserves_of_plain (isws_plain hw1)) (preserves_strLit k)
    have p2 := preserves_str_app p1 (preserves_of_plain (isws_plain hw2))
    have p3 := preserves_str_app p2 (preserves_of_plain (l := (":" : String).data) (by decide))
    have p4 := preserves_str_app p3 (preserves_of_plain (isws_plain hw3))
    have p5 := preserves_str_app p4 ihv
    have p6 := preserves_str_app p5 (preserves_of_plain (l := ("," : String).data) (by decide))
    exact preserves_str_app p6 ihrest

/-- Any rendering of a JSON object ends in a closing brace. -/
theorem valR_jobj_last {es : List (String × JVal)} {s : String}
    (h : ValR (.jobj es) s) : s.data.getLast? = some '}' := by
  have key : ∀ (body : String), ("\x7b" ++ body ++ "\x7d").data.getLast? = some '}' := by
    intro body
    rw [data_braces]
    rw [show '{' :: (body.data ++ ['}']) = ('{' :: body.data) ++ ['}'] from rfl]
    exact List.getLast?_concat _
  cases h with
  | jobjEmpty w hw => exact key w
  | jobj es body hb => exact key body

theorem str_append_empty (s : String) : s ++ "" = s := by
  apply strData_ext
  rw [strData_app]
  simp

theorem str_empty_append (s : String) : "" ++ s = s := by
  apply strData_ext
  rw [strData_app]
  simp [show ("" : String).data = [] from rfl]

theorem emitEntry_eq (pretty : Bool) (m : MapSer) (k t : String) :
    emitEntry pretty m k t = ⟨m.buf ++ entryTxt pretty m.first k t, false⟩ := by
  unfold emitEntry entryTxt
  congr 1
  simp [String.append_assoc]

theorem serKVList_eq (pretty : Bool) :
    ∀ (kvs : List (String × SValue)) (ts : List (String × String)) (m : MapSer),
      resolveTexts kvs = some ts →
      serKVList pretty m kvs =
        some ⟨m.buf ++ renderEntries pretty m.first ts, m.first && ts.isEmpty⟩ := by
  intro kvs
  induction kvs with
  | nil =>
    intro ts m h
    simp only [resolveTexts, Option.some.injEq] at h
    subst h
    simp [serKVList, renderEntries, str_append_empty]
  | cons hd tl ih =>
    obtain ⟨k, v⟩ := hd
    intro ts m h
    cases hv : svalText v with
    | none => simp [resolveTexts, hv] at h
    | some t =>
      cases htl : resolveTexts tl with
      | none => simp [resolveTexts, hv, htl] at h
      | some tl2 =>
        simp only [resolveTexts, hv, htl, Option.some.injEq] at h
        subst h
        have hrec := ih tl2 (emitEntry pretty m k t) htl
        rw [emitEntry_eq] at hrec
        show (match emitKV pretty m k v with
          | some m2 => serKVList pretty m2 tl
          | none => none) = _
        rw [show emitKV pretty m k v = some (emitEntry pretty m k t) from by
          simp [emitKV, hv]]
        show serKVList pretty (emitEntry pretty m k t) tl = _
        rw [emitEntry_eq, hrec]
        simp only [renderEntries, Option.some.injEq, MapSer.mk.injEq]
        constructor
        · rw [String.append_assoc]
        · simp

theorem serKVList_append (pretty : Bool) (a b : List (String × SValue)) :
    ∀ m, serKVList pretty m (a ++ b) =
      (serKVList pretty m a).bind (fun m2 => serKVList pretty m2 b) := by
  induction a with
  | nil => intro m; rfl
  | cons hd tl ih =>
    obtain ⟨k, v⟩ := hd
    intro m
    cases hv : emitKV pretty m k v with
    | none => simp [serKVList, hv]
    | some m2 => simp [serKVList, hv, ih]

theorem serStaticLists_eq (pretty : Bool) (ts : Int) (lvl : Level) :
    ∀ (ls : List (List (String × StaticVal))) (m : MapSer),
      serStaticLists pretty ts lvl m ls = serKVList pretty m (resolveStatics ts lvl ls) := by
  intro ls
  induction ls with
  | nil => intro m; rfl
  | cons l ls ih =>
    intro m
    rw [show resolveStatics ts lvl (l :: ls) =
        l.map (fun p => (p.1, p.2.resolve ts lvl)) ++ resolveStatics ts lvl ls from by
      simp [resolveStatics]]
    rw [serKVList_append]
    cases h : serKVList pretty m (l.map fun p => (p.1, p.2.resolve ts lvl)) with
    | none => simp [serStaticLists, h]
    | some m2 => simp [serStaticLists, h, ih]

theorem pairsR_append {js1 js2 : List (String × JVal)}
    {ts1 ts2 : List (String × String)}
    (h1 : PairsR js1 ts1) (h2 : PairsR js2 ts2) :
    PairsR (js1 ++ js2) (ts1 ++ ts2) := by
  induction h1 with
  | nil => exact h2
  | cons k hv _ ih => exact .cons k hv ih

theorem svalText_valR : ∀ {v : SValue} {t : String} {j : JVal},
    svalText v = some t → SValue.toJVal v = some j → ValR j t := by
  intro v t j ht hj
  cases v with
  | vBool b =>
    cases b
    all_goals
      simp only [svalText, SValue.toJVal, Option.some.injEq] at ht hj
      subst ht; subst hj
    · exact ValR.jfalse
    · exact ValR.jtrue
  | vInt n =>
    simp only [svalText, SValue.toJVal, Option.some.injEq] at ht hj
    subst ht; subst hj
    exact ValR.jint n
  | vStr s =>
    simp only [svalText, SValue.toJVal, Option.some.injEq] at ht hj
    subst ht; subst hj
    exact ValR.jstr s
  | vChar c =>
    simp only [svalText, SValue.toJVal, Option.some.injEq] at ht hj
    subst ht; subst hj
    exact ValR.jstr (String.singleton c)
  | vUnit =>
    simp only [svalText, SValue.toJVal, Option.some.injEq] at ht hj
    subst ht; subst hj
    exact ValR.jnull
  | vFmt s =>
    simp only [svalText, SValue.toJVal, Option.some.injEq] at ht hj
    subst ht; subst hj
    exact ValR.jstr s
  | vErr => simp [svalText] at ht

theorem pairsR_resolve : ∀ {kvs : List (String × SValue)}
    {js : List (String × JVal)} {ts : List (String × String)},
    resolveJVals kvs = some js → resolveTexts kvs = some ts → PairsR js ts := by
  intro kvs
  induction kvs with
  | nil =>
    intro js ts hj ht
    simp only [resolveJVals, Option.some.injEq] at hj
    simp only [resolveTexts, Option.some.injEq] at ht
    subst hj; subst ht
    exact .nil
  | cons hd tl ih =>
    obtain ⟨k, v⟩ := hd
    intro js ts hj ht
    cases hvj : SValue.toJVal v with
    | none => simp [resolveJVals, hvj] at hj
    | some j =>
      cases hjs : resolveJVals tl with
      | none => simp [resolveJVals, hvj, hjs] at hj
      | some js2 =>
        cases hvt : svalText v with
        | none => simp [resolveTexts, hvt] at ht
        | some t =>
          cases hts : resolveTexts tl with
          | none => simp [resolveTexts, hvt, hts] at ht
          | some ts2 =>
            simp only [resolveJVals, hvj, hjs, Option.some.injEq] at hj
            simp only [resolveTexts, hvt, hts, Option.some.injEq] at ht
            subst hj; subst ht
            exact .cons k (svalText_valR hvt hvj) (ih hjs hts)

/-- A successfully text-rendered value also denotes a JSON value. -/
theorem toJVal_of_text {v : SValue} {t : String} (h : svalText v = some t) :
    ∃ j, SValue.toJVal v = some j := by
  cases v <;> first
  | exact ⟨_, rfl⟩
  | simp [svalText] at h

theorem resolveJVals_of_texts : ∀ {kvs : List (String × SValue)}
    {ts : List (String × String)}, resolveTexts kvs = some ts →
    ∃ js, resolveJVals kvs = some js := by
  intro kvs
  induction kvs with
  | nil => intro ts _; exact ⟨[], rfl⟩
  | cons hd tl ih =>
    obtain ⟨k, v⟩ := hd
    intro ts ht
    cases hvt : svalText v with
    | none => simp [resolveTexts, hvt] at ht
    | some t =>
      cases hts : resolveTexts tl with
      | none => simp [resolveTexts, hvt, hts] at ht
      | some ts2 =>
        obtain ⟨j, hj⟩ := toJVal_of_text hvt
        obtain ⟨js2, hjs⟩ := ih hts
        exact ⟨(k, j) :: js2, by simp [resolveJVals, hj, hjs]⟩

theorem resolveJVals_map_fst : ∀ {kvs : List (String × SValue)}
    {js : List (String × JVal)}, resolveJVals kvs = some js →
    js.map Prod.fst = kvs.map Prod.fst := by
  intro kvs
  induction kvs with
  | nil =>
    intro js hj
    simp only [resolveJVals, Option.some.injEq] at hj
    subst hj
    rfl
  | cons hd tl ih =>
    obtain ⟨k, v⟩ := hd
    intro js hj
    cases hvj : SValue.toJVal v with
    | none => simp [resolveJVals, hvj] at hj
    | some j =>
      cases hjs : resolveJVals tl with
      | none => simp [resolveJVals, hvj, hjs] at hj
      | some js2 =>
        simp only [resolveJVals, hvj, hjs, Option.some.injEq] at hj
        subst hj
        simp [ih hjs]

theorem pairsR_length : ∀ {js : List (String × JVal)} {ts : List (String × String)},
    PairsR js ts → js.length = ts.length := by
  intro js ts h
  induction h with
  | nil => rfl
  | cons k _ _ ih => simp [ih]

theorem keySep_false (pretty : Bool) : keySep pretty false = "," ++ keySep pretty true := by
  cases pretty
  · apply strData_ext
    simp [keySep, strData_app]
  · apply strData_ext
    simp [keySep, strData_app]

theorem isws_keySep_true (pretty : Bool) : IsWs (keySep pretty true) := by
  cases pretty <;> decide

theorem colonSep_eq (pretty : Bool) : colonSep pretty = ":" ++ colonWs pretty := by
  cases pretty
  · apply strData_ext
    simp [colonSep, colonWs, strData_app]
  · apply strData_ext
    simp [colonSep, colonWs, strData_app]

theorem isws_colonWs (pretty : Bool) : IsWs (colonWs pretty) := by
  cases pretty <;> decide

theorem entriesR_single (pretty : Bool) (k : String) {j : JVal} {t : String}
    (hv : ValR j t) : EntriesR [(k, j)] (entryTxt pretty true k t) := by
  have h := EntriesR.last k j (keySep pretty true) "" (colonWs pretty) "" t
    (isws_keySep_true pretty) isws_empty (isws_colonWs pretty) isws_empty hv
  have e : keySep pretty true ++ strLit k ++ "" ++ ":" ++ colonWs pretty ++ t ++ "" =
      entryTxt pretty true k t := by
    apply strData_ext
    simp [entryTxt, colonSep_eq pretty, strData_app]
  rwa [e] at h

theorem entriesR_cons_entry (pretty : Bool) (k : String) {j : JVal} {t : String}
    (hv : ValR j t) {rest : List (String × JVal)} {srest : String}
    (hrest : EntriesR rest srest) :
    EntriesR ((k, j) :: rest) (entryTxt pretty true k t ++ ("," ++ srest)) := by
  have h := EntriesR.cons k j rest (keySep pretty true) "" (colonWs pretty) t srest
    (isws_keySep_true pretty) isws_empty (isws_colonWs pretty) hv hrest
  have e : keySep pretty true ++ strLit k ++ "" ++ ":" ++ colonWs pretty ++ t ++ "," ++ srest =
      entryTxt pretty true k t ++ ("," ++ srest) := by
    apply strData_ext
    simp [entryTxt, colonSep_eq pretty, strData_app]
  rwa [e] at h

theorem renderEntries_false (pretty : Bool) (e : String × String)
    (l : List (String × String)) :
    renderEntries pretty false (e :: l) = "," ++ renderEntries pretty true (e :: l) := by
  obtain ⟨k, t⟩ := e
  show entryTxt pretty false k t ++ renderEntries pretty false l =
    "," ++ (entryTxt pretty true k t ++ renderEntries pretty false l)
  apply strData_ext
  simp [entryTxt, keySep_false pretty, strData_app]

theorem renderEntries_append (pretty : Bool) :
    ∀ (a b : List (String × String)) (first : Bool),
      renderEntries pretty first (a ++ b) =
        renderEntries pretty first a ++ renderEntries pretty (first && a.isEmpty) b := by
  intro a
  induction a with
  | nil =>
    intro b first
    rw [show (([] : List (String × String)) ++ b) = b from rfl]
    rw [show renderEntries pretty first [] = "" from rfl]
    rw [str_empty_append]
    simp
  | cons e a ih =>
    intro b first
    obtain ⟨k, t⟩ := e
    show entryTxt pretty first k t ++ renderEntries pretty false (a ++ b) = _
    rw [ih b false]
    rw [show (first && ((k, t) :: a).isEmpty) = false by simp]
    rw [show renderEntries pretty first ((k, t) :: a) =
      entryTxt pretty first k t ++ renderEntries pretty false a from rfl]
    rw [String.append_assoc]
    simp

/-- The central positive lemma: a successfully rendered, nonempty pair
sequence satisfies the entry render relation. -/
theorem entriesR_render (pretty : Bool) :
    ∀ {js : List (String × JVal)} {ts : List (String × String)},
      PairsR js ts → ts ≠ [] → EntriesR js (renderEntries pretty true ts) := by
  intro js ts h
  induction h with
  | nil => intro hne; exact absurd rfl hne
  | cons k hv htl ih =>
    intro _
    cases htl with
    | nil =>
      show EntriesR [(k, _)] (entryTxt pretty true k _ ++ renderEntries pretty false [])
      rw [show renderEntries pretty false ([] : List (String × String)) = "" from rfl,
        str_append_empty]
      exact entriesR_single pretty k hv
    | cons k2 hv2 htl2 =>
      have ihh := ih (by simp)
      show EntriesR ((k, _) :: _) (entryTxt pretty true k _ ++ renderEntries pretty false _)
      rw [renderEntries_false]
      exact entriesR_cons_entry pretty k hv ihh

/-- Whitespace may be appended after the last entry of a rendered entry
sequence (the pretty formatter's newline before the closing brace). -/
theorem entriesR_ws_ext : ∀ {es : List (String × JVal)} {s : String},
    EntriesR es s → ∀ {w : String}, IsWs w → EntriesR es (s ++ w) := by
  intro es s h
  refine @EntriesR.rec (fun _ _ _ => True)
    (fun es s _ => ∀ {w : String}, IsWs w → EntriesR es (s ++ w))
    ?_ ?_ ?_ ?_ ?_ ?_ ?_ ?_ ?_ es s h
  · trivial
  · trivial
  · trivial
  · intro n; trivial
  · intro s; trivial
  · intro w hw; trivial
  · intro es body hb _; trivial
  · intro k v w1 w2 w3 w4 vs hw1 hw2 hw3 hw4 hv _ w hw
    have h2 := EntriesR.last k v w1 w2 w3 (w4 ++ w) vs hw1 hw2 hw3 (isws_append hw4 hw) hv
    have e : w1 ++ strLit k ++ w2 ++ ":" ++ w3 ++ vs ++ (w4 ++ w) =
        w1 ++ strLit k ++ w2 ++ ":" ++ w3 ++ vs ++ w4 ++ w := by
      apply strData_ext
      simp [strData_app]
    rwa [e] at h2
  · intro k v rest w1 w2 w3 vs srest hw1 hw2 hw3 hv hrest _ ihrest w hw
    have h2 := EntriesR.cons k v rest w1 w2 w3 vs (srest ++ w) hw1 hw2 hw3 hv (ihrest hw)
    have e : w1 ++ strLit k ++ w2 ++ ":" ++ w3 ++ vs ++ "," ++ (srest ++ w) =
        w1 ++ strLit k ++ w2 ++ ":" ++ w3 ++ vs ++ "," ++ srest ++ w := by
      apply strData_ext
      simp [strData_app]
    rwa [e] at h2

theorem pass1_eq (d : MozLogJson) (ts : Int) (r : Record)
    {tsS : List (String × String)}
    (h : resolveTexts (resolveStatics ts r.level d.values) = some tsS) :
    d.log_placeholder_impl ts r =
      some ("\x7b" ++ renderEntries d.pretty true
        (tsS ++ [("Fields", strLit "00PLACEHOLDER00")]) ++ endObjTxt d.pretty true) := by
  unfold MozLogJson.log_placeholder_impl
  rw [serStaticLists_eq, serKVList_eq d.pretty _ tsS mapStart h]
  simp only [mapStart, Bool.true_and]
  rw [show emitKV d.pretty ⟨"\x7b" ++ renderEntries d.pretty true tsS, tsS.isEmpty⟩
      "Fields" (.vStr "00PLACEHOLDER00")
    = some (emitEntry d.pretty ⟨"\x7b" ++ renderEntries d.pretty true tsS, tsS.isEmpty⟩
      "Fields" (strLit "00PLACEHOLDER00")) from by simp [emitKV, svalText]]
  rw [emitEntry_eq]
  have hr : renderEntries d.pretty true (tsS ++ [("Fields", strLit "00PLACEHOLDER00")])
      = renderEntries d.pretty true tsS
        ++ entryTxt d.pretty tsS.isEmpty "Fields" (strLit "00PLACEHOLDER00") := by
    rw [renderEntries_append]
    rw [Bool.true_and]
    rw [show renderEntries d.pretty tsS.isEmpty [("Fields", strLit "00PLACEHOLDER00")]
      = entryTxt d.pretty tsS.isEmpty "Fields" (strLit "00PLACEHOLDER00") ++ "" from rfl]
    rw [str_append_empty]
  rw [hr]
  dsimp only
  apply congrArg
  apply strData_ext
  simp [strData_app]

theorem log_fields_impl_eq (d : MozLogJson) (r : Record)
    (lv : List (String × SValue)) :
    d.log_fields_impl r lv =
      match serKVList d.pretty (emitEntry d.pretty mapStart "msg" (strLit r.msg))
          (lv ++ r.kv) with
      | some m => some m.buf
      | none => none := by
  unfold MozLogJson.log_fields_impl
  rw [show emitKV d.pretty mapStart "msg" (.vStr r.msg)
    = some (emitEntry d.pretty mapStart "msg" (strLit r.msg)) from by simp [emitKV, svalText]]
  rw [serKVList_append]
  cases h1 : serKVList d.pretty (emitEntry d.pretty mapStart "msg" (strLit r.msg)) lv with
  | none => simp [h1]
  | some m2 =>
    cases h2 : serKVList d.pretty m2 r.kv with
    | none => simp [h1, h2]
    | some m3 => simp [h1, h2]

theorem pass2_eq (d : MozLogJson) (r : Record) (lv : List (String × SValue))
    {tsR : List (String × String)}
    (h : resolveTexts (lv ++ r.kv) = some tsR) :
    d.log_fields_impl r lv =
      some ("\x7b" ++ renderEntries d.pretty true (("msg", strLit r.msg) :: tsR)) := by
  rw [log_fields_impl_eq]
  rw [serKVList_eq d.pretty _ tsR _ h]
  rw [emitEntry_eq]
  dsimp only
  rw [show renderEntries d.pretty true (("msg", strLit r.msg) :: tsR)
    = entryTxt d.pretty true "msg" (strLit r.msg) ++ renderEntries d.pretty false tsR from rfl]
  apply congrArg
  apply strData_ext
  simp [strData_app, mapStart]

theorem serKVList_some_texts (pretty : Bool) :
    ∀ (kvs : List (String × SValue)) (m m2 : MapSer),
      serKVList pretty m kvs = some m2 → ∃ ts, resolveTexts kvs = some ts := by
  intro kvs
  induction kvs with
  | nil => intro m m2 _; exact ⟨[], rfl⟩
  | cons hd tl ih =>
    obtain ⟨k, v⟩ := hd
    intro m m2 h
    cases hv : svalText v with
    | none =>
      rw [show serKVList pretty m ((k, v) :: tl) =
        (match emitKV pretty m k v with
          | some m3 => serKVList pretty m3 tl
          | none => none) from rfl] at h
      rw [show emitKV pretty m k v = none from by simp [emitKV, hv]] at h
      exact absurd h (by simp)
    | some t =>
      rw [show serKVList pretty m ((k, v) :: tl) =
        (match emitKV pretty m k v with
          | some m3 => serKVList pretty m3 tl
          | none => none) from rfl] at h
      rw [show emitKV pretty m k v = some (emitEntry pretty m k t) from by
        simp [emitKV, hv]] at h
      obtain ⟨ts2, hts2⟩ := ih _ _ h
      exact ⟨(k, t) :: ts2, by simp [resolveTexts, hv, hts2]⟩

theorem pass1_some_texts {d : MozLogJson} {ts : Int} {r : Record} {p : String}
    (h : d.log_placeholder_impl ts r = some p) :
    ∃ tsS, resolveTexts (resolveStatics ts r.level d.values) = some tsS := by
  unfold MozLogJson.log_placeholder_impl at h
  rw [serStaticLists_eq] at h
  cases hs : serKVList d.pretty mapStart (resolveStatics ts r.level d.values) with
  | none => rw [hs] at h; exact absurd h (by simp)
  | some m => exact serKVList_some_texts d.pretty _ _ _ hs

theorem pass2_some_texts {d : MozLogJson} {r : Record} {lv : List (String × SValue)}
    {p : String} (h : d.log_fields_impl r lv = some p) :
    ∃ tsR, resolveTexts (lv ++ r.kv) = some tsR := by
  rw [log_fields_impl_eq] at h
  cases hs : serKVList d.pretty (emitEntry d.pretty mapStart "msg" (strLit r.msg))
      (lv ++ r.kv) with
  | none => rw [hs] at h; exact absurd h (by simp)
  | some m => exact serKVList_some_texts d.pretty _ _ _ hs

theorem occOfPrefix {pat s : List Char} (h : pat.isPrefixOf s) : pat <:+: s := by
  obtain ⟨t, ht⟩ := List.isPrefixOf_iff_prefix.mp h
  exact ⟨[], t, by simp [ht]⟩

theorem infix_cons_drop {pat : List Char} {c : Char} {cs : List Char}
    (h : pat <:+: cs) : pat <:+: c :: cs := by
  obtain ⟨x, y, hxy⟩ := h
  exact ⟨c :: x, y, by simp [← hxy]⟩

theorem replaceAux_fuelIrrel {pat rep : List Char} (hpat : pat ≠ []) :
    ∀ (n : Nat) (s : List Char), s.length ≤ n →
      ∀ (f1 f2 : Nat), s.length ≤ f1 → s.length ≤ f2 →
        replaceAux pat rep f1 s = replaceAux pat rep f2 s := by
  intro n
  induction n with
  | zero =>
    intro s hs f1 f2 _ _
    rw [List.length_eq_zero.mp (Nat.le_zero.mp hs)]
    cases f1 <;> cases f2 <;> rfl
  | succ n ih =>
    intro s hs f1 f2 h1 h2
    cases s with
    | nil => cases f1 <;> cases f2 <;> rfl
    | cons c cs =>
      cases f1 with
      | zero => exact absurd h1 (by simp)
      | succ f1 =>
        cases f2 with
        | zero => exact absurd h2 (by simp)
        | succ f2 =>
          have hplen : 0 < pat.length := List.length_pos.mpr hpat
          have hlen : cs.length ≤ n := by
            simpa using Nat.succ_le_succ_iff.mp hs
          show (if pat.isPrefixOf (c :: cs) then
              rep ++ replaceAux pat rep f1 (List.drop pat.length (c :: cs))
            else c :: replaceAux pat rep f1 cs) =
            (if pat.isPrefixOf (c :: cs) then
              rep ++ replaceAux pat rep f2 (List.drop pat.length (c :: cs))
            else c :: replaceAux pat rep f2 cs)
          by_cases hp : pat.isPrefixOf (c :: cs)
          · rw [if_pos hp, if_pos hp]
            have hd : (List.drop pat.length (c :: cs)).length ≤ n := by
              rw [List.length_drop]
              simp only [List.length_cons]
              omega
            have hd1 : (List.drop pat.length (c :: cs)).length ≤ f1 := by
              rw [List.length_drop]
              simp only [List.length_cons] at h1 ⊢
              omega
            have hd2 : (List.drop pat.length (c :: cs)).length ≤ f2 := by
              rw [List.length_drop]
              simp only [List.length_cons] at h2 ⊢
              omega
            rw [ih _ hd _ _ hd1 hd2]
          · rw [if_neg hp, if_neg hp]
            have hc1 : cs.length ≤ f1 := by
              simp only [List.length_cons] at h1
              omega
            have hc2 : cs.length ≤ f2 := by
              simp only [List.length_cons] at h2
              omega
            rw [ih _ hlen _ _ hc1 hc2]

theorem replaceAux_no_occ {pat rep : List Char} :
    ∀ (f : Nat) (s : List Char), s.length ≤ f → ¬ pat <:+: s →
      replaceAux pat rep f s = s := by
  intro f
  induction f with
  | zero =>
    intro s hs _
    rw [List.length_eq_zero.mp (Nat.le_zero.mp hs)]
    rfl
  | succ f ih =>
    intro s hs hno
    cases s with
    | nil => rfl
    | cons c cs =>
      show (if pat.isPrefixOf (c :: cs) then
          rep ++ replaceAux pat rep f (List.drop pat.length (c :: cs))
        else c :: replaceAux pat rep f cs) = c :: cs
      rw [if_neg (fun hp => hno (occOfPrefix hp))]
      have hcs : cs.length ≤ f := by
        simp only [List.length_cons] at hs
        omega
      rw [ih cs hcs (fun hinf => hno (infix_cons_drop hinf))]

theorem prefix_take {l x y : List Char} (h : l <+: x ++ y)
    (hl : l.length ≤ x.length) : l <+: x := by
  obtain ⟨t, ht⟩ := h
  have he : l = (x ++ y).take l.length := by
    rw [← ht]
    rw [List.take_left]
  rw [List.take_append_of_le_length hl] at he
  exact he ▸ List.take_prefix _ x

theorem replaceL_split {pat rep : List Char} (hpat : pat ≠ []) :
    ∀ (a b : List Char), ¬ pat <:+: (a ++ pat.dropLast) →
      replaceAux pat rep (a ++ pat ++ b).length (a ++ pat ++ b) =
        a ++ rep ++ replaceAux pat rep b.length b := by
  intro a
  induction a with
  | nil =>
    intro b hno
    cases hp : pat with
    | nil => exact absurd hp hpat
    | cons p ps =>
      show (if (p :: ps).isPrefixOf (p :: (ps ++ b)) then
          rep ++ replaceAux (p :: ps) rep (ps ++ b).length
            (List.drop (p :: ps).length (p :: (ps ++ b)))
        else _) = [] ++ rep ++ replaceAux (p :: ps) rep b.length b
      rw [if_pos (List.isPrefixOf_iff_prefix.mpr ⟨b, by simp⟩)]
      rw [show List.drop (p :: ps).length (p :: (ps ++ b)) = b from by
        rw [show p :: (ps ++ b) = (p :: ps) ++ b from rfl]
        exact List.drop_left (p :: ps) b]
      rw [replaceAux_fuelIrrel (hp ▸ hpat) (ps ++ b).length b (by simp) _ _ (by simp) le_rfl]
      simp
  | cons c a ih =>
    intro b hno
    have hplen : 0 < pat.length := List.length_pos.mpr hpat
    show (if pat.isPrefixOf (c :: (a ++ pat ++ b)) then _
      else c :: replaceAux pat rep (a ++ pat ++ b).length (a ++ pat ++ b)) =
        (c :: a) ++ rep ++ replaceAux pat rep b.length b
    rw [if_neg]
    · rw [ih b (fun hinf => hno (infix_cons_drop hinf))]
      rfl
    · intro hp
      apply hno
      have hpre : pat <+: (c :: a) ++ pat ++ b := by
        rw [show (c :: a) ++ pat ++ b = c :: (a ++ pat ++ b) from by simp]
        exact List.isPrefixOf_iff_prefix.mp hp
      have hsplit : (c :: a) ++ pat ++ b =
          ((c :: a) ++ pat.dropLast) ++ (pat.getLast hpat :: b) := by
        conv =>
          lhs
          rw [show pat = pat.dropLast ++ [pat.getLast hpat] from
            (List.dropLast_append_getLast hpat).symm]
        simp
      rw [hsplit] at hpre
      have hlen : pat.length ≤ ((c :: a) ++ pat.dropLast).length := by
        simp only [List.length_append, List.length_cons, List.length_dropLast]
        omega
      have := prefix_take hpre hlen
      exact this.isInfix

theorem phPat_ne : phPat.data ≠ [] := by decide

theorem phPat_strLit : strLit "00PLACEHOLDER00" = phPat := by decide

theorem rustReplace_splice {pre close : String} (fields : String)
    (hno : PlacedOnce pre)
    (hclose : ¬ phPat.data <:+: close.data) :
    rustReplace (pre ++ phPat ++ close) phPat fields = pre ++ fields ++ close := by
  apply strData_ext
  show replaceAux phPat.data fields.data (pre ++ phPat ++ close).data.length
      (pre ++ phPat ++ close).data = (pre ++ fields ++ close).data
  rw [strData_app (pre ++ phPat) close, strData_app pre phPat]
  rw [replaceL_split phPat_ne pre.data close.data hno]
  rw [replaceAux_no_occ close.data.length close.data le_rfl hclose]
  rw [strData_app (pre ++ fields) close, strData_app pre fields]

theorem renderEntries_snoc (pretty : Bool) (ts : List (String × String)) (k t : String) :
    renderEntries pretty true (ts ++ [(k, t)]) =
      renderEntries pretty true ts ++ entryTxt pretty ts.isEmpty k t := by
  rw [renderEntries_append, Bool.true_and]
  rw [show renderEntries pretty ts.isEmpty [(k, t)]
    = entryTxt pretty ts.isEmpty k t ++ "" from rfl]
  rw [str_append_empty]

theorem pass1_decomp (d : MozLogJson) (ts : Int) (r : Record)
    {tsS : List (String × String)}
    (h : resolveTexts (resolveStatics ts r.level d.values) = some tsS) :
    d.log_placeholder_impl ts r =
      some (d.pass1Pre ts r.level ++ phPat ++ endObjTxt d.pretty true) := by
  rw [pass1_eq d ts r h]
  apply congrArg
  rw [renderEntries_snoc]
  unfold MozLogJson.pass1Pre
  rw [h]
  apply strData_ext
  simp [strData_app, entryTxt, phPat_strLit]

theorem endObjTxt_eq (pretty : Bool) :
    endObjTxt pretty true = (if pretty then "\n" else "") ++ "\x7d" := by
  cases pretty
  · apply strData_ext
    simp [endObjTxt, strData_app]
  · apply strData_ext
    simp [endObjTxt, strData_app]

theorem phPat_notin_close (pretty : Bool) :
    ¬ phPat.data <:+: (endObjTxt pretty true).data := by
  cases pretty <;> decide

/-- The structural shape of a successful `log` call in the absence of a
placeholder collision: the spliced bytes render the envelope object whose
entries are the resolved static entries followed by `Fields`, and the
`Fields` value is exactly the pass-2 object. -/
theorem log_shape (d : MozLogJson) (ts : Int) (r : Record)
    (lv : List (String × SValue)) {body : String}
    (hok : d.logBody ts r lv = some body)
    (hno : PlacedOnce (d.pass1Pre ts r.level)) :
    ∃ (S F : List (String × JVal)),
      resolveJVals (resolveStatics ts r.level d.values) = some S ∧
      resolveJVals (("msg", SValue.vStr r.msg) :: (lv ++ r.kv)) = some F ∧
      ValR (.jobj (S ++ [("Fields", .jobj F)])) body := by
  unfold MozLogJson.logBody at hok
  cases h1 : d.log_placeholder_impl ts r with
  | none => rw [h1] at hok; exact absurd hok (by simp)
  | some payload =>
  cases h2 : d.log_fields_impl r lv with
  | none => rw [h1, h2] at hok; exact absurd hok (by simp)
  | some fields =>
  rw [h1, h2] at hok
  have hbody : body = rustReplace payload phPat fields ++ "\x7d" :=
    (Option.some.inj hok).symm
  obtain ⟨tsS, htsS⟩ := pass1_some_texts h1
  obtain ⟨tsR, htsR⟩ := pass2_some_texts h2
  have htsF : resolveTexts (("msg", SValue.vStr r.msg) :: (lv ++ r.kv))
      = some (("msg", strLit r.msg) :: tsR) := by
    simp [resolveTexts, svalText, htsR]
  obtain ⟨S, hS⟩ := resolveJVals_of_texts htsS
  obtain ⟨F, hF⟩ := resolveJVals_of_texts htsF
  refine ⟨S, F, hS, hF, ?_⟩
  have hpay := pass1_decomp d ts r htsS
  rw [h1] at hpay
  have hpayload := Option.some.inj hpay
  have hfld := pass2_eq d r lv htsR
  rw [h2] at hfld
  have hfields := Option.some.inj hfld
  rw [hpayload, hfields] at hbody
  rw [rustReplace_splice _ hno (phPat_notin_close d.pretty)] at hbody
  have htarget : body = "\x7b" ++ renderEntries d.pretty true
      (tsS ++ [("Fields", "\x7b" ++ (renderEntries d.pretty true
          (("msg", strLit r.msg) :: tsR) ++ (if d.pretty then "\n" else ""))
        ++ "\x7d")]) ++ "\x7d" := by
    rw [hbody]
    rw [renderEntries_snoc]
    unfold MozLogJson.pass1Pre
    rw [htsS]
    rw [endObjTxt_eq]
    apply strData_ext
    simp [strData_app, entryTxt]
  rw [htarget]
  apply ValR.jobj
  have hpairsF : PairsR F (("msg", strLit r.msg) :: tsR) := pairsR_resolve hF htsF
  have hEntF : EntriesR F (renderEntries d.pretty true (("msg", strLit r.msg) :: tsR)) :=
    entriesR_render d.pretty hpairsF (by simp)
  have hEntFw := entriesR_ws_ext hEntF (w := if d.pretty then "\n" else "")
    (by cases d.pretty <;> decide)
  have hvalF : ValR (.jobj F) ("\x7b" ++ (renderEntries d.pretty true
      (("msg", strLit r.msg) :: tsR) ++ (if d.pretty then "\n" else "")) ++ "\x7d") :=
    ValR.jobj _ _ hEntFw
  have hpairsAll := pairsR_append (pairsR_resolve hS htsS)
    (PairsR.cons "Fields" hvalF PairsR.nil)
  exact entriesR_render d.pretty hpairsAll (by simp)

theorem resolveStatics_map_fst (ts : Int) (lvl : Level)
    (ls : List (List (String × StaticVal))) :
    (resolveStatics ts lvl ls).map Prod.fst = ls.flatten.map Prod.fst := by
  unfold resolveStatics
  induction ls with
  | nil => rfl
  | cons l ls ih =>
    simp only [List.map_cons, List.flatten_cons, List.map_append, ih]
    simp [Function.comp]

theorem build_values_keys (b : MozLogJsonBuilder) (pid : Nat) :
    (b.build pid).values.flatten.map Prod.fst =
      b.values.flatten.map Prod.fst
      ++ (match b.logger_name with | some _ => ["Logger"] | none => [])
      ++ (match b.msg_type with | some _ => ["Type"] | none => [])
      ++ (match b.hostname with | some _ => ["Hostname"] | none => [])
      ++ ["Timestamp", "Pid"]
      ++ [if b.gcp then "severity" else "Severity"] := by
  obtain ⟨nl, vals, pr, ln, mt, hn, gcp⟩ := b
  unfold MozLogJsonBuilder.build
  cases ln <;> cases mt <;> cases hn <;> cases gcp <;> simp

/-- C3: for every log level of the closed enumeration, `level_to_severity`
returns 2, 3, 4, 6, 7, 7 and `level_to_gcp_severity` returns 600, 500,
400, 200, 100, 100 (Critical, Error, Warning, Info, Debug, Trace
respectively); both are total pure functions. -/
theorem c3_severity_tables :
    (level_to_severity .critical = 2 ∧ level_to_severity .error = 3 ∧
     level_to_severity .warning = 4 ∧ level_to_severity .info = 6 ∧
     level_to_severity .debug = 7 ∧ level_to_severity .trace = 7) ∧
    (level_to_gcp_severity .critical = 600 ∧ level_to_gcp_severity .error = 500 ∧
     level_to_gcp_severity .warning = 400 ∧ level_to_gcp_severity .info = 200 ∧
     level_to_gcp_severity .debug = 100 ∧ level_to_gcp_severity .trace = 100) := by
  decide

/-- C4: if either pass 1 (`log_placeholder_impl`) or pass 2
(`log_fields_impl`) fails with a serialization error, `log` returns the
error and the sink's byte stream is unchanged — zero bytes are written for
that event. -/
theorem c4_error_aborts_write (d : MozLogJson) (ts : Int) (r : Record)
    (lv : List (String × SValue)) (sink : String)
    (h : d.log_placeholder_impl ts r = none ∨ d.log_fields_impl r lv = none) :
    d.logRun ts r lv sink = (none, sink) := by
  have hlog : d.log ts r lv = none := by
    unfold MozLogJson.log MozLogJson.logBody
    rcases h with h | h
    · rw [h]
      rfl
    · cases h1 : d.log_placeholder_impl ts r with
      | none => rfl
      | some payload => rw [h]; rfl
  unfold MozLogJson.logRun
  rw [hlog]

/-- C4 witness: a drain whose custom static source holds a value the
backend rejects; pass 1 fails and the sink is untouched. -/
theorem c4_error_aborts_write_witness :
    (((MozLogJsonBuilder.new none).add_key_value
        [("bad", StaticVal.const SValue.vErr)]).build 1).log_placeholder_impl 0
        ⟨"m", Level.info, []⟩ = none ∧
    (((MozLogJsonBuilder.new none).add_key_value
        [("bad", StaticVal.const SValue.vErr)]).build 1).logRun 0
        ⟨"m", Level.info, []⟩ [] "sink" = (none, "sink") :=
  ⟨by decide,
   c4_error_aborts_write _ 0 ⟨"m", Level.info, []⟩ [] "sink" (Or.inl (by decide))⟩

/-- C8: `emit_arguments` renders into the thread-local scratch buffer,
writes the buffered text as the entry value, and leaves the buffer empty
on return whether the backend write succeeds or fails; consequently a
second call emits exactly its own value, with no content from the first
call's rendering. -/
theorem c8_emit_arguments_buffer (pretty : Bool) (m m2 : MapSer)
    (tlbuf k1 v1 k2 v2 : String) (ok1 ok2 : Bool) :
    (emit_arguments pretty m tlbuf k1 v1 ok1).2 = "" ∧
    (emit_arguments pretty m "" k1 v1 ok1).1 =
      (if ok1 then some (emitEntry pretty m k1 (strLit v1)) else none) ∧
    (emit_arguments pretty m2
        (emit_arguments pretty m "" k1 v1 ok1).2 k2 v2 ok2).1 =
      (if ok2 then some (emitEntry pretty m2 k2 (strLit v2)) else none) := by
  refine ⟨rfl, ?_, ?_⟩
  · show (if ok1 then some (emitEntry pretty m k1 (strLit ("" ++ v1))) else none) = _
    rw [str_empty_append]
  · show (if ok2 then some (emitEntry pretty m2 k2 (strLit ("" ++ v2))) else none) = _
    rw [str_empty_append]

/-- C9: two encoders built from identical builder configurations produce
identical sink effects for the same event at a fixed clock and pid: the
encoding is deterministic in (configuration, record, logger context,
timestamp, pid). -/
theorem c9_deterministic (b1 b2 : MozLogJsonBuilder) (pid : Nat) (ts : Int)
    (r : Record) (lv : List (String × SValue)) (sink : String) (h : b1 = b2) :
    (b1.build pid).logRun ts r lv sink = (b2.build pid).logRun ts r lv sink := by
  rw [h]

/-- C9 witness at a concrete configuration and event. -/
theorem c9_deterministic_witness :
    MozLogJsonBuilder.new none = MozLogJsonBuilder.new none ∧
    ((MozLogJsonBuilder.new none).build 42).logRun 0 ⟨"m", Level.info, []⟩ [] "" =
      ((MozLogJsonBuilder.new none).build 42).logRun 0 ⟨"m", Level.info, []⟩ [] "" :=
  ⟨rfl, c9_deterministic _ _ 42 0 ⟨"m", Level.info, []⟩ [] "" rfl⟩

/-- C2 counterexample: the pass-2 buffer is NOT a complete well-formed
JSON object — `log_fields_impl` never calls `end()`, so its buffer lacks
the closing brace.  At a concrete event the buffer is
`\x7b"msg":"m"`, which no JSON object renders to (every rendering of an
object ends in a closing brace). -/
theorem c2_fields_pass_counterexample :
    ((MozLogJsonBuilder.new none).build 42).log_fields_impl ⟨"m", Level.info, []⟩ []
      = some "\x7b\"msg\":\"m\"" ∧
    ∀ es : List (String × JVal), ¬ ValR (.jobj es) "\x7b\"msg\":\"m\"" := by
  refine ⟨by decide, ?_⟩
  intro es h
  exact absurd (valR_jobj_last h) (by decide)

/-- C2 (amended): pass 2 opens a JSON map and writes `msg`, then the
logger-context pairs, then the call-site pairs, in that order, but does
not close the map: its buffer is the rendering of exactly that object
with the formatter's closing text removed, and appending that closing
text (the brace, preceded by a newline in pretty mode) yields a
well-formed rendering of the fields object. -/
theorem c2_fields_pass_amended (d : MozLogJson) (r : Record)
    (lv : List (String × SValue)) {s : String}
    (hok : d.log_fields_impl r lv = some s) :
    ∃ F : List (String × JVal),
      resolveJVals (("msg", SValue.vStr r.msg) :: (lv ++ r.kv)) = some F ∧
      ValR (.jobj F) (s ++ endObjTxt d.pretty true) := by
  obtain ⟨tsR, htsR⟩ := pass2_some_texts hok
  have htsF : resolveTexts (("msg", SValue.vStr r.msg) :: (lv ++ r.kv))
      = some (("msg", strLit r.msg) :: tsR) := by
    simp [resolveTexts, svalText, htsR]
  obtain ⟨F, hF⟩ := resolveJVals_of_texts htsF
  refine ⟨F, hF, ?_⟩
  have hfld := pass2_eq d r lv htsR
  rw [hok] at hfld
  have hs := Option.some.inj hfld
  have hEntF : EntriesR F (renderEntries d.pretty true (("msg", strLit r.msg) :: tsR)) :=
    entriesR_render d.pretty (pairsR_resolve hF htsF) (by simp)
  have hEntFw := entriesR_ws_ext hEntF (w := if d.pretty then "\n" else "")
    (by cases d.pretty <;> decide)
  have hval := ValR.jobj _ _ hEntFw
  have he : s ++ endObjTxt d.pretty true =
      "\x7b" ++ (renderEntries d.pretty true (("msg", strLit r.msg) :: tsR)
        ++ (if d.pretty then "\n" else "")) ++ "\x7d" := by
    rw [hs, endObjTxt_eq]
    apply strData_ext
    simp [strData_app]
  rw [he]
  exact hval

/-- C2 witness: the amended statement at a concrete event. -/
theorem c2_fields_pass_witness :
    ((MozLogJsonBuilder.new none).build 42).log_fields_impl ⟨"m", Level.info, []⟩ []
      = some "\x7b\"msg\":\"m\"" ∧
    ∃ F : List (String × JVal),
      resolveJVals [("msg", SValue.vStr "m")] = some F ∧
      ValR (.jobj F) ("\x7b\"msg\":\"m\"" ++
        endObjTxt ((MozLogJsonBuilder.new none).build 42).pretty true) :=
  ⟨by decide, c2_fields_pass_amended ((MozLogJsonBuilder.new none).build 42)
    ⟨"m", Level.info, []⟩ [] (by decide)⟩

/-- C5: for logger-context and call-site sources totalling N pairs, the
fields object produced by pass 2 has exactly N+1 entries in the order
`msg`, then the logger-context pairs in attachment order, then the
call-site pairs in call order, with duplicate keys preserved as separate
entries. -/
theorem c5_fields_entry_order (d : MozLogJson) (r : Record)
    (lv : List (String × SValue)) {s : String}
    (hok : d.log_fields_impl r lv = some s) :
    ∃ F : List (String × JVal),
      resolveJVals (("msg", SValue.vStr r.msg) :: (lv ++ r.kv)) = some F ∧
      ValR (.jobj F) (s ++ endObjTxt d.pretty true) ∧
      F.map Prod.fst = "msg" :: (lv.map Prod.fst ++ r.kv.map Prod.fst) ∧
      F.length = 1 + (lv.length + r.kv.length) := by
  obtain ⟨tsR, htsR⟩ := pass2_some_texts hok
  have htsF : resolveTexts (("msg", SValue.vStr r.msg) :: (lv ++ r.kv))
      = some (("msg", strLit r.msg) :: tsR) := by
    simp [resolveTexts, svalText, htsR]
  obtain ⟨F, hF⟩ := resolveJVals_of_texts htsF
  have hkeys : F.map Prod.fst = "msg" :: (lv.map Prod.fst ++ r.kv.map Prod.fst) := by
    rw [resolveJVals_map_fst hF]
    simp
  refine ⟨F, hF, ?_, hkeys, ?_⟩
  · have hfld := pass2_eq d r lv htsR
    rw [hok] at hfld
    have hs := Option.some.inj hfld
    have hEntF : EntriesR F (renderEntries d.pretty true (("msg", strLit r.msg) :: tsR)) :=
      entriesR_render d.pretty (pairsR_resolve hF htsF) (by simp)
    have hEntFw := entriesR_ws_ext hEntF (w := if d.pretty then "\n" else "")
      (by cases d.pretty <;> decide)
    have hval := ValR.jobj _ _ hEntFw
    have he : s ++ endObjTxt d.pretty true =
        "\x7b" ++ (renderEntries d.pretty true (("msg", strLit r.msg) :: tsR)
          ++ (if d.pretty then "\n" else "")) ++ "\x7d" := by
      rw [hs, endObjTxt_eq]
      apply strData_ext
      simp [strData_app]
    rw [he]
    exact hval
  · have := congrArg List.length hkeys
    simp at this
    omega

/-- C5 witness: a concrete event with a duplicated key across the
logger context and the call site; both entries survive, unmerged. -/
theorem c5_fields_entry_order_witness :
    ((MozLogJsonBuilder.new none).build 42).log_fields_impl
      ⟨"m", Level.info, [("dup", SValue.vStr "b")]⟩ [("dup", SValue.vInt 1)]
      = some "\x7b\"msg\":\"m\",\"dup\":1,\"dup\":\"b\"" ∧
    ∃ F : List (String × JVal),
      resolveJVals (("msg", SValue.vStr "m") ::
        ([("dup", SValue.vInt 1)] ++ [("dup", SValue.vStr "b")])) = some F ∧
      ValR (.jobj F) ("\x7b\"msg\":\"m\",\"dup\":1,\"dup\":\"b\"" ++
        endObjTxt ((MozLogJsonBuilder.new none).build 42).pretty true) ∧
      F.map Prod.fst = "msg" :: ([("dup", SValue.vInt 1)].map Prod.fst
        ++ [("dup", SValue.vStr "b")].map Prod.fst) ∧
      F.length = 1 + ([("dup", SValue.vInt 1)].length + [("dup", SValue.vStr "b")].length) :=
  ⟨by decide, c5_fields_entry_order ((MozLogJsonBuilder.new none).build 42)
    ⟨"m", Level.info, [("dup", SValue.vStr "b")]⟩ [("dup", SValue.vInt 1)] (by decide)⟩

/-- C7: pass 1 writes the static sources in configuration order — custom
sources first, then Logger, Type, Hostname (each only when configured),
then Timestamp and Pid, then Severity or severity — and writes the
`Fields` entry, whose value is the literal placeholder string, as the
last entry of the envelope map. -/
theorem c7_pass1_envelope_order (b : MozLogJsonBuilder) (pid : Nat) (ts : Int)
    (r : Record) {p : String}
    (hok : (b.build pid).log_placeholder_impl ts r = some p) :
    ∃ E : List (String × JVal),
      ValR (.jobj E) p ∧
      E.map Prod.fst = b.values.flatten.map Prod.fst
        ++ (match b.logger_name with | some _ => ["Logger"] | none => [])
        ++ (match b.msg_type with | some _ => ["Type"] | none => [])
        ++ (match b.hostname with | some _ => ["Hostname"] | none => [])
        ++ ["Timestamp", "Pid"]
        ++ [if b.gcp then "severity" else "Severity"]
        ++ ["Fields"] ∧
      E.getLast? = some ("Fields", .jstr "00PLACEHOLDER00") := by
  obtain ⟨tsS, htsS⟩ := pass1_some_texts hok
  obtain ⟨S, hS⟩ := resolveJVals_of_texts htsS
  refine ⟨S ++ [("Fields", .jstr "00PLACEHOLDER00")], ?_, ?_, List.getLast?_concat _⟩
  · have hpass := pass1_eq (b.build pid) ts r htsS
    rw [hok] at hpass
    have hp := Option.some.inj hpass
    have hpairs := pairsR_append (pairsR_resolve hS htsS)
      (PairsR.cons "Fields" (ValR.jstr "00PLACEHOLDER00") PairsR.nil)
    have hEnt := entriesR_render (b.build pid).pretty hpairs (by simp)
    have hEntw := entriesR_ws_ext hEnt (w := if (b.build pid).pretty then "\n" else "")
      (by cases (b.build pid).pretty <;> decide)
    have hval := ValR.jobj _ _ hEntw
    have he : p = "\x7b" ++ (renderEntries (b.build pid).pretty true
        (tsS ++ [("Fields", strLit "00PLACEHOLDER00")])
        ++ (if (b.build pid).pretty then "\n" else "")) ++ "\x7d" := by
      rw [hp, endObjTxt_eq]
      apply strData_ext
      simp [strData_app]
    rw [he]
    exact hval
  · rw [List.map_append, resolveJVals_map_fst hS, resolveStatics_map_fst,
      build_values_keys b pid]
    simp

/-- C7 witness: a fully configured builder (custom source, logger name,
type, hostname, GCP off) at a concrete event. -/
theorem c7_pass1_envelope_order_witness :
    ∃ p : String,
      (wit7Builder.build 9).log_placeholder_impl 3 wit7Record = some p ∧
      ∃ E : List (String × JVal),
        ValR (.jobj E) p ∧
        E.map Prod.fst = ["v", "Logger", "Type", "Hostname", "Timestamp", "Pid",
          "Severity", "Fields"] ∧
        E.getLast? = some ("Fields", .jstr "00PLACEHOLDER00") := by
  have hok : (wit7Builder.build 9).log_placeholder_impl 3 wit7Record
      = some (((wit7Builder.build 9).log_placeholder_impl 3 wit7Record).getD "") := by
    decide
  refine ⟨_, hok, ?_⟩
  obtain ⟨E, h1, h2, h3⟩ := c7_pass1_envelope_order wit7Builder 9 3 wit7Record hok
  exact ⟨E, h1, by rw [h2]; decide, h3⟩

/-- C1 counterexample: with the logger name configured to the placeholder
text, both passes succeed, yet the spliced bytes are not a rendering of
any JSON object (the structural scanner leaves them brace-unbalanced), so
the output is not a valid JSON object with the claimed keys. -/
theorem c1_splice_counterexample :
    ∃ body : String,
      (collBuilder.build 7).logBody 5 collRecord [] = some body ∧
      scanAux 0 0 body.data ≠ (0, 0) ∧
      ∀ es : List (String × JVal), ¬ ValR (.jobj es) body := by
  refine ⟨((collBuilder.build 7).logBody 5 collRecord []).getD "", by decide,
    by decide, ?_⟩
  intro es h
  exact absurd (valR_scan h 0) (by decide)

/-- C1 (amended): for every log event for which both passes succeed AND
no occurrence of the quoted placeholder starts in the pass-1 payload
before the `Fields` value (`PlacedOnce`), the spliced bytes render a JSON
object whose keys are exactly the configured static fields — custom
sources, then Logger/Type/Hostname when configured, Timestamp, Pid,
Severity or severity — plus `Fields` last, and the `Fields` value
deep-equals the object independently denoted by the pass-2 fields
serialization. -/
theorem c1_splice_valid_json (b : MozLogJsonBuilder) (pid : Nat) (ts : Int)
    (r : Record) (lv : List (String × SValue)) {body : String}
    (hok : (b.build pid).logBody ts r lv = some body)
    (hno : PlacedOnce ((b.build pid).pass1Pre ts r.level)) :
    ∃ (S F : List (String × JVal)),
      resolveJVals (resolveStatics ts r.level (b.build pid).values) = some S ∧
      resolveJVals (("msg", SValue.vStr r.msg) :: (lv ++ r.kv)) = some F ∧
      ValR (.jobj (S ++ [("Fields", .jobj F)])) body ∧
      (S ++ [("Fields", JVal.jobj F)]).map Prod.fst =
        b.values.flatten.map Prod.fst
        ++ (match b.logger_name with | some _ => ["Logger"] | none => [])
        ++ (match b.msg_type with | some _ => ["Type"] | none => [])
        ++ (match b.hostname with | some _ => ["Hostname"] | none => [])
        ++ ["Timestamp", "Pid"]
        ++ [if b.gcp then "severity" else "Severity"]
        ++ ["Fields"] ∧
      (S ++ [("Fields", JVal.jobj F)]).getLast? = some ("Fields", .jobj F) := by
  obtain ⟨S, F, hS, hF, hval⟩ := log_shape (b.build pid) ts r lv hok hno
  refine ⟨S, F, hS, hF, hval, ?_, List.getLast?_concat _⟩
  rw [List.map_append, resolveJVals_map_fst hS, resolveStatics_map_fst,
    build_values_keys b pid]
  simp

/-- C1 witness: the amended statement at a concrete non-colliding
configuration and event. -/
theorem c1_splice_valid_json_witness :
    ((wit7Builder.build 9).logBody 3 wit7Record []).isSome ∧
    PlacedOnce ((wit7Builder.build 9).pass1Pre 3 wit7Record.level) ∧
    ∃ (S F : List (String × JVal)),
      resolveJVals (resolveStatics 3 wit7Record.level (wit7Builder.build 9).values)
        = some S ∧
      resolveJVals (("msg", SValue.vStr wit7Record.msg) :: ([] ++ wit7Record.kv))
        = some F ∧
      ValR (.jobj (S ++ [("Fields", .jobj F)]))
        (((wit7Builder.build 9).logBody 3 wit7Record []).getD "") ∧
      (S ++ [("Fields", JVal.jobj F)]).map Prod.fst =
        wit7Builder.values.flatten.map Prod.fst
        ++ (match wit7Builder.logger_name with | some _ => ["Logger"] | none => [])
        ++ (match wit7Builder.msg_type with | some _ => ["Type"] | none => [])
        ++ (match wit7Builder.hostname with | some _ => ["Hostname"] | none => [])
        ++ ["Timestamp", "Pid"]
        ++ [if wit7Builder.gcp then "severity" else "Severity"]
        ++ ["Fields"] ∧
      (S ++ [("Fields", JVal.jobj F)]).getLast? = some ("Fields", .jobj F) := by
  have hok : (wit7Builder.build 9).logBody 3 wit7Record []
      = some (((wit7Builder.build 9).logBody 3 wit7Record []).getD "") := by
    decide
  exact ⟨by decide, by decide,
    c1_splice_valid_json wit7Builder 9 3 wit7Record [] hok (by decide)⟩

/-- C10: the splice substitutes EVERY occurrence of the quoted placeholder
in the pass-1 payload, not only the `Fields` value position: with an
attribute string value equal to `00PLACEHOLDER00`, the pass-2 bytes are
spliced into the attribute position as well, and the written bytes are
not a valid JSON encoding of the envelope with that attribute value
preserved (they are not a rendering of any JSON object at all). -/
theorem c10_replace_hits_every_occurrence :
    ∃ body : String,
      (collBuilder.build 7).logBody 5 ⟨"m", Level.info, []⟩ [] = some body ∧
      body = "\x7b\"Logger\":\x7b\"msg\":\"m\",\"Timestamp\":5,\"Pid\":7,\"Severity\":6,"
        ++ "\"Fields\":\x7b\"msg\":\"m\"\x7d\x7d" ∧
      (∀ es : List (String × JVal), ¬ ValR (.jobj es) body) := by
  refine ⟨((collBuilder.build 7).logBody 5 ⟨"m", Level.info, []⟩ []).getD "",
    by decide, by decide, ?_⟩
  intro es h
  exact absurd (valR_scan h 0) (by decide)

theorem decDigit_ne_L (n : Nat) : decDigit n ≠ 'L' := by
  unfold decDigit
  split <;> decide

theorem natReprAux_ne_L (fuel n : Nat) : ∀ c ∈ natReprAux fuel n, c ≠ 'L' := by
  induction fuel generalizing n with
  | zero => intro c hc; simp [natReprAux] at hc
  | succ fuel ih =>
    intro c hc
    simp only [natReprAux] at hc
    split at hc
    · simp only [List.mem_singleton] at hc
      exact hc ▸ decDigit_ne_L n
    · rcases List.mem_append.mp hc with h | h
      · exact ih _ _ h
      · simp only [List.mem_singleton] at h
        exact h ▸ decDigit_ne_L (n % 10)

theorem intRepr_noL (n : Int) : 'L' ∉ (intRepr n).data := by
  intro h
  cases n with
  | ofNat m => exact natReprAux_ne_L _ _ _ h rfl
  | negSucc m =>
    rw [intRepr, strData_app] at h
    rcases List.mem_append.mp h with h | h
    · simp [show ("-" : String).data = ['-'] from rfl] at h
    · exact natReprAux_ne_L _ _ _ h rfl

theorem noL_app {a b : String} (ha : 'L' ∉ a.data) (hb : 'L' ∉ b.data) :
    'L' ∉ (a ++ b).data := by
  intro h
  rw [strData_app] at h
  rcases List.mem_append.mp h with h | h
  · exact ha h
  · exact hb h

theorem noL_keySep (pretty first : Bool) : 'L' ∉ (keySep pretty first).data := by
  cases pretty <;> cases first <;> decide

theorem noL_colonSep (pretty : Bool) : 'L' ∉ (colonSep pretty).data := by
  cases pretty <;> decide

theorem noL_renderEntries (pretty : Bool) :
    ∀ (ts : List (String × String)) (first : Bool),
      (∀ kt ∈ ts, 'L' ∉ (strLit kt.1).data ∧ 'L' ∉ kt.2.data) →
      'L' ∉ (renderEntries pretty first ts).data := by
  intro ts
  induction ts with
  | nil =>
    intro first _ hc
    simp [renderEntries] at hc
  | cons kt rest ih =>
    obtain ⟨k, t⟩ := kt
    intro first h
    obtain ⟨hk, ht⟩ := h (k, t) (List.mem_cons_self _ _)
    show 'L' ∉ (entryTxt pretty first k t ++ renderEntries pretty false rest).data
    refine noL_app (noL_app (noL_app (noL_app (noL_keySep pretty first) hk)
      (noL_colonSep pretty)) ht) ?_
    exact ih false (fun x hx => h x (List.mem_cons_of_mem _ hx))

/-- If the character `L` does not occur in `pre`, no occurrence of the
quoted placeholder can start inside `pre`: an occurrence either puts the
`L` of `PLACEHOLDER` inside `pre`, or starts within the last four
characters before the placeholder, where the suffix of the pattern would
have to be a prefix of the pattern's own `dropLast` — and it never is. -/
theorem placedOnce_of_noL {pre : String} (h : 'L' ∉ pre.data) : PlacedOnce pre := by
  intro hocc
  obtain ⟨x, y, hxy⟩ := hocc
  have hlen := congrArg List.length hxy
  simp only [List.length_append] at hlen
  rw [show phPat.data.length = 17 from by decide,
    show phPat.data.dropLast.length = 16 from by decide] at hlen
  by_cases hcase : x.length + 4 < pre.data.length
  · -- the pattern's L lands inside pre
    have hL : (x ++ phPat.data ++ y)[x.length + 4]? = some 'L' := by
      rw [List.getElem?_append, if_pos (by
        simp only [List.length_append]
        rw [show phPat.data.length = 17 from by decide]
        omega)]
      rw [List.getElem?_append_right (Nat.le_add_right _ _)]
      rw [Nat.add_sub_cancel_left]
      decide
    rw [hxy] at hL
    rw [List.getElem?_append, if_pos (by omega)] at hL
    exact h (List.getElem?_mem hL)
  · -- the occurrence starts in the last four characters of pre
    have hxlt : x.length + 1 ≤ pre.data.length := by omega
    obtain ⟨k, hk⟩ : ∃ k, pre.data.length = x.length + k :=
      ⟨pre.data.length - x.length, by omega⟩
    have hk1 : 1 ≤ k := by omega
    have hk4 : k ≤ 4 := by omega
    have hdrop : phPat.data.drop k ++ y = phPat.data.dropLast := by
      have e1 : (x ++ (phPat.data ++ y)).drop (x.length + k)
          = (phPat.data ++ y).drop k := List.drop_append k
      have e2 : (phPat.data ++ y).drop k = phPat.data.drop k ++ y := by
        rw [List.drop_append_eq_append_drop]
        rw [show k - phPat.data.length = 0 from by
          rw [show phPat.data.length = 17 from by decide]
          omega]
        rw [List.drop_zero]
      have e3 : (pre.data ++ phPat.data.dropLast).drop pre.data.length
          = phPat.data.dropLast := List.drop_left _ _
      have hxy2 : x ++ (phPat.data ++ y) = pre.data ++ phPat.data.dropLast := by
        rw [← List.append_assoc]
        exact hxy
      rw [hk, ← hxy2, e1, e2] at e3
      exact e3
    have hpre : phPat.data.drop k <+: phPat.data.dropLast := ⟨y, hdrop⟩
    interval_cases k
    · exact absurd hpre (by decide)
    · exact absurd hpre (by decide)
    · exact absurd hpre (by decide)
    · exact absurd hpre (by decide)

theorem build_statics (b : MozLogJsonBuilder) (pid : Nat) (ts : Int) (lvl : Level) :
    resolveStatics ts lvl (b.build pid).values =
      resolveStatics ts lvl b.values
      ++ (match b.logger_name with | some n => [("Logger", SValue.vStr n)] | none => [])
      ++ (match b.msg_type with | some t => [("Type", SValue.vStr t)] | none => [])
      ++ (match b.hostname with | some s => [("Hostname", SValue.vStr s)] | none => [])
      ++ [("Timestamp", SValue.vInt ts), ("Pid", SValue.vInt (pid : Int))]
      ++ (if b.gcp then [("severity", SValue.vInt (level_to_gcp_severity lvl))]
          else [("Severity", SValue.vInt (level_to_severity lvl))]) := by
  obtain ⟨nl, vals, pr, ln, mt, hn, gcp⟩ := b
  unfold MozLogJsonBuilder.build
  cases ln <;> cases mt <;> cases hn <;> cases gcp <;>
    simp [resolveStatics, StaticVal.resolve, List.map_append, List.flatten_append]

theorem new_gcp (env : Option String) :
    (MozLogJsonBuilder.new env).gcp = decide (env = some "true") := by
  show (boolFromStr (env.getD "false")).getD false = decide (env = some "true")
  cases env with
  | none => decide
  | some s =>
    show (boolFromStr s).getD false = decide (some s = some "true")
    unfold boolFromStr
    by_cases hs : s = "true"
    · subst hs
      decide
    · rw [if_neg hs]
      rw [show decide (some s = some "true") = false from by simp [hs]]
      by_cases hf : s = "false"
      · subst hf
        decide
      · rw [if_neg hf]
        rfl

theorem c6_placedOnce (env : Option String) (pid : Nat) (ts : Int) (lvl : Level) :
    PlacedOnce (((MozLogJsonBuilder.new env).build pid).pass1Pre ts lvl) := by
  apply placedOnce_of_noL
  have hstat := build_statics (MozLogJsonBuilder.new env) pid ts lvl
  simp only [show (MozLogJsonBuilder.new env).values = [] from rfl,
    show (MozLogJsonBuilder.new env).logger_name = none from rfl,
    show (MozLogJsonBuilder.new env).msg_type = none from rfl,
    show (MozLogJsonBuilder.new env).hostname = none from rfl,
    show resolveStatics ts lvl [] = [] from rfl, List.nil_append] at hstat
  cases hg : (MozLogJsonBuilder.new env).gcp with
  | false =>
    rw [hg, if_neg (by simp)] at hstat
    have htxts : resolveTexts (resolveStatics ts lvl
        ((MozLogJsonBuilder.new env).build pid).values)
        = some [("Timestamp", intRepr ts), ("Pid", intRepr (pid : Int)),
            ("Severity", intRepr ((level_to_severity lvl : Nat) : Int))] := by
      rw [hstat]
      simp [resolveTexts, svalText]
    dsimp only [MozLogJson.pass1Pre]
    rw [htxts]
    simp only [Option.getD_some]
    refine noL_app (noL_app (noL_app (noL_app (by decide) ?_)
      (noL_keySep _ _)) (by decide)) (noL_colonSep _)
    apply noL_renderEntries
    intro kt hkt
    simp only [List.mem_cons, List.not_mem_nil, or_false] at hkt
    rcases hkt with h | h | h
    · subst h
      exact ⟨show 'L' ∉ (strLit "Timestamp").data from by decide, intRepr_noL ts⟩
    · subst h
      exact ⟨show 'L' ∉ (strLit "Pid").data from by decide, intRepr_noL _⟩
    · subst h
      exact ⟨show 'L' ∉ (strLit "Severity").data from by decide, intRepr_noL _⟩
  | true =>
    rw [hg, if_pos rfl] at hstat
    have htxts : resolveTexts (resolveStatics ts lvl
        ((MozLogJsonBuilder.new env).build pid).values)
        = some [("Timestamp", intRepr ts), ("Pid", intRepr (pid : Int)),
            ("severity", intRepr ((level_to_gcp_severity lvl : Nat) : Int))] := by
      rw [hstat]
      simp [resolveTexts, svalText]
    dsimp only [MozLogJson.pass1Pre]
    rw [htxts]
    simp only [Option.getD_some]
    refine noL_app (noL_app (noL_app (noL_app (by decide) ?_)
      (noL_keySep _ _)) (by decide)) (noL_colonSep _)
    apply noL_renderEntries
    intro kt hkt
    simp only [List.mem_cons, List.not_mem_nil, or_false] at hkt
    rcases hkt with h | h | h
    · subst h
      exact ⟨show 'L' ∉ (strLit "Timestamp").data from by decide, intRepr_noL ts⟩
    · subst h
      exact ⟨show 'L' ∉ (strLit "Pid").data from by decide, intRepr_noL _⟩
    · subst h
      exact ⟨show 'L' ∉ (strLit "severity").data from by decide, intRepr_noL _⟩

/-- C6: `MOZLOG_GCP` is read exactly once, at builder construction
(`MozLogJsonBuilder.new` is the only point where the model consumes the
environment value); when the value is the string `true` the built
encoder's output carries the key `severity` with the GCP-scale code of
the event's level and no `Severity` key, and for any other value
(including an absent variable) it carries `Severity` with the
MozLog-scale code and no `severity` key. -/
theorem c6_gcp_env_toggle (env : Option String) (pid : Nat) (ts : Int) (r : Record)
    (lv : List (String × SValue)) {body : String}
    (hok : ((MozLogJsonBuilder.new env).build pid).logBody ts r lv = some body) :
    (MozLogJsonBuilder.new env).gcp = decide (env = some "true") ∧
    ∃ E : List (String × JVal),
      ValR (.jobj E) body ∧
      E.map Prod.fst = ["Timestamp", "Pid",
        (if env = some "true" then "severity" else "Severity"), "Fields"] ∧
      ((env = some "true") →
        ("severity", JVal.jint ((level_to_gcp_severity r.level : Nat) : Int)) ∈ E ∧
        "Severity" ∉ E.map Prod.fst) ∧
      ((env ≠ some "true") →
        ("Severity", JVal.jint ((level_to_severity r.level : Nat) : Int)) ∈ E ∧
        "severity" ∉ E.map Prod.fst) := by
  refine ⟨new_gcp env, ?_⟩
  obtain ⟨S, F, hS, hF, hval⟩ :=
    log_shape _ ts r lv hok (c6_placedOnce env pid ts r.level)
  have hstat := build_statics (MozLogJsonBuilder.new env) pid ts r.level
  simp only [show (MozLogJsonBuilder.new env).values = [] from rfl,
    show (MozLogJsonBuilder.new env).logger_name = none from rfl,
    show (MozLogJsonBuilder.new env).msg_type = none from rfl,
    show (MozLogJsonBuilder.new env).hostname = none from rfl,
    show resolveStatics ts r.level [] = [] from rfl, List.nil_append] at hstat
  by_cases henv : env = some "true"
  · have hgf : (MozLogJsonBuilder.new env).gcp = true := by
      rw [new_gcp env]
      simp [henv]
    rw [hgf] at hstat
    rw [if_pos rfl] at hstat
    rw [hstat] at hS
    simp only [resolveJVals, SValue.toJVal, List.cons_append, List.nil_append,
      Option.some.injEq] at hS
    subst hS
    refine ⟨_ ++ [("Fields", .jobj F)], hval, ?_, ?_, ?_⟩
    · simp [henv]
    · intro _
      exact ⟨by simp, by simp⟩
    · intro hne
      exact absurd henv hne
  · have hgf : (MozLogJsonBuilder.new env).gcp = false := by
      rw [new_gcp env]
      simp [henv]
    rw [hgf] at hstat
    rw [if_neg (by simp)] at hstat
    rw [hstat] at hS
    simp only [resolveJVals, SValue.toJVal, List.cons_append, List.nil_append,
      Option.some.injEq] at hS
    subst hS
    refine ⟨_ ++ [("Fields", .jobj F)], hval, ?_, ?_, ?_⟩
    · simp [henv]
    · intro hctr
      exact absurd hctr henv
    · intro _
      exact ⟨by simp, by simp⟩

/-- C6 witness: the toggle set to `"true"` at a concrete event. -/
theorem c6_gcp_env_toggle_witness :
    ((MozLogJsonBuilder.new (some "true")).build 11).logBody 2 wit6Record []
      = some ((((MozLogJsonBuilder.new (some "true")).build 11).logBody 2
          wit6Record []).getD "") ∧
    ((MozLogJsonBuilder.new (some "true")).gcp
        = decide ((some "true" : Option String) = some "true") ∧
      ∃ E : List (String × JVal),
        ValR (.jobj E)
          ((((MozLogJsonBuilder.new (some "true")).build 11).logBody 2
            wit6Record []).getD "") ∧
        E.map Prod.fst = ["Timestamp", "Pid",
          (if (some "true" : Option String) = some "true"
            then "severity" else "Severity"), "Fields"] ∧
        (((some "true" : Option String) = some "true") →
          ("severity", JVal.jint ((level_to_gcp_severity wit6Record.level : Nat) : Int)) ∈ E ∧
          "Severity" ∉ E.map Prod.fst) ∧
        (((some "true" : Option String) ≠ some "true") →
          ("Severity", JVal.jint ((level_to_severity wit6Record.level : Nat) : Int)) ∈ E ∧
          "severity" ∉ E.map Prod.fst)) := by
  have hok : ((MozLogJsonBuilder.new (some "true")).build 11).logBody 2 wit6Record []
      = some ((((MozLogJsonBuilder.new (some "true")).build 11).logBody 2
          wit6Record []).getD "") := by
    decide
  exact ⟨hok, c6_gcp_env_toggle (some "true") 11 2 wit6Record [] hok⟩
